import Mathlib

/-!
Verification of the calculation engine of the open-power-control-simulator
repository (src/calculation.ts and the node behaviours of src/nodeTypes.tsx).

Modelling conventions:
* JavaScript numbers are modelled as rationals (`ℚ`).  The solver's norm
  comparisons `‖v‖ < c` are modelled on squares (`‖v‖² < c²`), which is
  equivalent for non-negative reals and avoids square roots.
* A `(node id, port id)` pair is a `Pair`; the per-node JS objects
  `graphNodes[nodeId].ports[portId]` are modelled as one association list
  keyed by the pair.  JS object iteration order (insertion order) is
  reproduced where the code depends on it.
* The `while (border.length > 0)` worklist of `buildCalculationGraph` is run
  on an explicit iteration budget (`bigFuel`); the budget is provably
  sufficient (each pair is processed at most once), see the
  fuel lemmas below.  A JS `TypeError` (dangling edge endpoint:
  `graphNodes[nodeId]` is `undefined`) is `BuildErr.typeError`.
* The node type tag always matches the shape of the node's data payload
  (the editor's `defaultData` guarantees this), so the two are merged into
  one inductive `NodeSpec`.
-/

deriving instance DecidableEq for Except

namespace OPCS

abbrev Pair := String × String

/-- Node type tag together with its behaviour-specific data payload
(`NumberNodeData` / `ArithmeticNodeData` / graph reference). -/
inductive NodeSpec where
  | number (value : ℚ) (locked : Bool)
  | plus (topPorts bottomPorts : List String)
  | mul (topPorts bottomPorts : List String)
  | graphReference
  deriving DecidableEq

/-- A `Node<NodeData>` of the diagram, as consumed by `buildCalculationGraph`. -/
structure GraphNode where
  id : String
  spec : NodeSpec
  deriving DecidableEq

/-- An `Edge<EdgeData>`: `source`/`target` node ids and handles. -/
structure GraphEdge where
  source : String
  sourceHandle : String
  target : String
  targetHandle : String
  deriving DecidableEq

/-- The two connection entries an edge contributes at key `x`
(`addConnection` is called once in each direction). -/
def edgeConnsAt (x : Pair) (e : GraphEdge) : List Pair :=
  (if (e.source, e.sourceHandle) = x then [(e.target, e.targetHandle)] else []) ++
  (if (e.target, e.targetHandle) = x then [(e.source, e.sourceHandle)] else [])

/-- `connections[x.1][x.2]` after the fill-connections loop. -/
def conns (edges : List GraphEdge) (x : Pair) : List Pair :=
  edges.flatMap (edgeConnsAt x)

/-- All mentions (in insertion order) of ports of node `n` while the
connection map is filled. -/
def nodePortMentions (edges : List GraphEdge) (n : String) : List String :=
  edges.flatMap fun e =>
    (if e.source = n then [e.sourceHandle] else []) ++
    (if e.target = n then [e.targetHandle] else [])

/-- First-occurrence deduplication (JS object key insertion order). -/
def dedupFirstAux [DecidableEq α] : List α → List α → List α
  | [], _ => []
  | a :: l, seenKeys =>
    if a ∈ seenKeys then dedupFirstAux l seenKeys
    else a :: dedupFirstAux l (a :: seenKeys)

def dedupFirst [DecidableEq α] (l : List α) : List α := dedupFirstAux l []

/-- `Object.keys(connections[n])`. -/
def portKeys (edges : List GraphEdge) (n : String) : List String :=
  dedupFirst (nodePortMentions edges n)

/-- A `CalcNet`: numeric id, current value, and the `[CalcNode, port]`
pairs pushed into it. -/
structure CalcNet where
  id : Nat
  value : ℚ
  ports : List Pair
  deriving DecidableEq

/-- The mutable state grown by the create-all-ports loop: the union of all
`CalcNode.ports` maps (keyed by `(node id, port id)`) and the net list. -/
structure BuildState where
  portNet : List (Pair × Nat)
  nets : List CalcNet
  deriving DecidableEq

inductive BuildErr where
  | typeError
  | outOfFuel
  deriving DecidableEq

/-- `graphNodes[p.1].ports[p.2]` (most recent assignment wins). -/
def pnLookup (pn : List (Pair × Nat)) (x : Pair) : Option Nat :=
  (pn.find? (fun q => q.1 = x)).map (·.2)

/-- `net.ports.push(p)` on the (unique) net with the given id. -/
def pushPort (nets : List CalcNet) (netId : Nat) (p : Pair) : List CalcNet :=
  nets.map fun n => if n.id = netId then { n with ports := n.ports ++ [p] } else n

/-- The `while (border.length > 0)` loop that collects one connected
component.  `border` is kept reversed relative to the JS array so that
`border.pop()` is the head; the pushes of one step therefore prepend
`(cns p).reverse`.  A pair whose node id is not a key of `graphNodes`
raises `typeError` (the JS `graphNodes[nodeId].ports[portId] = ...` on
`undefined`). -/
def traverse (ids : List String) (cns : Pair → List Pair) (netId : Nat) :
    Nat → List Pair → List Pair → BuildState → Except BuildErr BuildState
  | _, [], _, st => .ok st
  | 0, _ :: _, _, _ => .error .outOfFuel
  | fuel + 1, p :: rest, seen, st =>
    if p ∈ seen then traverse ids cns netId fuel rest seen st
    else if p.1 ∈ ids then
      traverse ids cns netId fuel ((cns p).reverse ++ rest) (p :: seen)
        { portNet := (p, netId) :: st.portNet
          nets := pushPort st.nets netId p }
    else .error .typeError

/-- Iteration budget for one component traversal: generous upper bound on
(initial border) + (total pushes). -/
def bigFuel (edges : List GraphEdge) : Nat :=
  (2 * edges.length + 1) * (2 * edges.length + 2)

/-- Inner loop over `Object.keys(connections[node.id])`: seed a fresh net
for every port that has no net yet. -/
def buildPortsNode (ids : List String) (edges : List GraphEdge) (nid : String) :
    List String → BuildState → Except BuildErr BuildState
  | [], st => .ok st
  | portId :: rest, st =>
    if (pnLookup st.portNet (nid, portId)).isSome then
      buildPortsNode ids edges nid rest st
    else
      match traverse ids (conns edges) st.nets.length (bigFuel edges)
          [(nid, portId)] []
          { st with nets := st.nets ++ [⟨st.nets.length, 1, []⟩] } with
      | .error e => .error e
      | .ok st' => buildPortsNode ids edges nid rest st'

/-- Outer loop over the node list. -/
def buildPorts (ids : List String) (edges : List GraphEdge) :
    List GraphNode → BuildState → Except BuildErr BuildState
  | [], st => .ok st
  | node :: rest, st =>
    match buildPortsNode ids edges node.id (portKeys edges node.id) st with
    | .error e => .error e
    | .ok st' => buildPorts ids edges rest st'

/-- A flattened `CalcNode` (its ports map lives in `BuildState.portNet`). -/
structure CalcNode where
  graphNodeId : String
  spec : NodeSpec
  deriving DecidableEq

/-- `Object.values(graphNodes)`: first-insertion key order, last write wins. -/
def calcNodesOf (nodes : List GraphNode) : List CalcNode :=
  (dedupFirst (nodes.map (·.id))).filterMap fun i =>
    ((nodes.filter (fun nd => nd.id = i)).getLast?).map fun nd =>
      ⟨nd.id, nd.spec⟩

/-- `buildCalculationGraph(nodes, edges)`. -/
def buildCalculationGraph (nodes : List GraphNode) (edges : List GraphEdge) :
    Except BuildErr (List CalcNode × BuildState) :=
  match buildPorts (nodes.map (·.id)) edges nodes ⟨[], []⟩ with
  | .error e => .error e
  | .ok st => .ok (calcNodesOf nodes, st)

/-! ## Node behaviours (equation contribution)

Each `calculateNode` is modelled as the list of `(derivative row, residual)`
pairs it passes to `addEquation` in one iteration, evaluated at the current
net values.  A row starts as `new Array(nets.length).fill(0)`; `row[i] = v`
is `List.set`, `row[i] += v` is `rowAdd`.  A port's `net.value` is read
through the net's numeric id; for states produced by
`buildCalculationGraph` the id is the net's index in the list (proved
below), matching the JS object aliasing. -/

/-- The value of the net with id `i` (the aliased `net.value`). -/
def netValue (nets : List CalcNet) (i : Nat) : ℚ :=
  ((nets.get? i).map (·.value)).getD 0

def zeroRow (n : Nat) : List ℚ := List.replicate n 0

/-- `row[i] += v`. -/
def rowAdd (row : List ℚ) (i : Nat) (v : ℚ) : List ℚ :=
  row.set i (row.getD i 0 + v)

/-- One equation: the derivative row and the residual returned to
`addEquation` (the solver negates it to build `b`). -/
abbrev Equation := List ℚ × ℚ

/-- `number.calculateNode` (src/nodeTypes.tsx): `a`/`b` are the port map
entries of handles `"a"`/`"b"`. -/
def numberEquations (a b : Option Nat) (value : ℚ) (locked : Bool)
    (nets : List CalcNet) : List Equation :=
  if locked then
    (match a with
      | some ia => [((zeroRow nets.length).set ia 1, netValue nets ia - value)]
      | none => []) ++
    (match b with
      | some ib => [((zeroRow nets.length).set ib 1, netValue nets ib - value)]
      | none => [])
  else
    match a, b with
    | some ia, some ib =>
        [(((zeroRow nets.length).set ia 1).set ib (-1),
          netValue nets ia - netValue nets ib)]
    | _, _ => []

/-- `plus.calculateNode`: one unconditional equation; `+= 1` per connected
top port, `-= 1` per connected bottom port; the returned residual is the
literal `return 0` of the source. -/
def plusEquations (portOf : String → Option Nat)
    (topPorts bottomPorts : List String) (nets : List CalcNet) : List Equation :=
  let row := topPorts.foldl
    (fun row portId =>
      match portOf portId with
      | some i => rowAdd row i 1
      | none => row)
    (zeroRow nets.length)
  let row := bottomPorts.foldl
    (fun row portId =>
      match portOf portId with
      | some i => rowAdd row i (-1)
      | none => row)
    row
  [(row, 0)]

/-- `mul.calculateNode`.  Note: the source divides by `net.value` without a
zero guard; in ℚ the convention `q / 0 = 0` replaces the JS `Infinity`/`NaN`
entries, but the presence of the equation and its residual
`topProduct - bottomProduct` are faithful. -/
def mulEquations (portOf : String → Option Nat)
    (topPorts bottomPorts : List String) (nets : List CalcNet) : List Equation :=
  let topNets := topPorts.filterMap portOf
  let bottomNets := bottomPorts.filterMap portOf
  if topNets ≠ [] ∧ bottomNets ≠ [] then
    let topProduct := topNets.foldl (fun a i => a * netValue nets i) 1
    let bottomProduct := bottomNets.foldl (fun a i => a * netValue nets i) 1
    let row := topNets.foldl
      (fun row i => rowAdd row i (topProduct / netValue nets i))
      (zeroRow nets.length)
    let row := bottomNets.foldl
      (fun row i => rowAdd row i (-(bottomProduct / netValue nets i)))
      row
    [(row, topProduct - bottomProduct)]
  else []

/-- Dispatch on the node's type tag (`nodeTypeInfos[...].calculateNode`). -/
def calculateNode (pn : List (Pair × Nat)) (nets : List CalcNet)
    (cn : CalcNode) : List Equation :=
  match cn.spec with
  | .number v locked =>
      numberEquations (pnLookup pn (cn.graphNodeId, "a"))
        (pnLookup pn (cn.graphNodeId, "b")) v locked nets
  | .plus top bottom =>
      plusEquations (fun portId => pnLookup pn (cn.graphNodeId, portId))
        top bottom nets
  | .mul top bottom =>
      mulEquations (fun portId => pnLookup pn (cn.graphNodeId, portId))
        top bottom nets
  | .graphReference => []

/-- One assembler pass: every node's contributions, in `Object.values`
order. -/
def assembleEquations (calcNodes : List CalcNode) (pn : List (Pair × Nat))
    (nets : List CalcNet) : List Equation :=
  calcNodes.flatMap (calculateNode pn nets)

/-! ## The linear solver stand-in

`ml-matrix`'s `solve(A, B)` uses LU for square systems (throwing on a
singular matrix) and QR least squares otherwise (throwing on rank
deficiency); `new Matrix([])` throws outright.  Over exact rationals the
same input/output behaviour is exact Gaussian elimination for the square
case and Gaussian elimination on the normal equations `AᵀA δ = Aᵀb` for
the least-squares case, with `none` standing for the thrown exception. -/

def dot (u v : List ℚ) : ℚ := (List.zipWith (· * ·) u v).sum

/-- Split off the first row whose leading coefficient is non-zero. -/
def pivotSplit : List (List ℚ × ℚ) → Option ((List ℚ × ℚ) × List (List ℚ × ℚ))
  | [] => none
  | rb :: rest =>
    if rb.1.headD 0 ≠ 0 then some (rb, rest)
    else
      match pivotSplit rest with
      | none => none
      | some (p, others) => some (p, rb :: others)

/-- Exact Gaussian elimination for `n` unknowns; `none` = singular. -/
def gaussSolve : (n : Nat) → List (List ℚ × ℚ) → Option (List ℚ)
  | 0, _ => some []
  | n + 1, sys =>
    match pivotSplit sys with
    | none => none
    | some ((r, br), others) =>
      let p := r.headD 0
      let reduced := others.map fun rb =>
        let f := rb.1.headD 0 / p
        (List.zipWith (fun x y => x - f * y) rb.1.tail r.tail, rb.2 - f * br)
      match gaussSolve n reduced with
      | none => none
      | some xs => some ((br - dot r.tail xs) / p :: xs)

/-- Transpose of a rectangular row-major matrix (column extraction). -/
def transposeQ (rows : List (List ℚ)) : List (List ℚ) :=
  (List.range (rows.headD []).length).map fun j => rows.map fun r => r.getD j 0

/-- The `solve(A, B)` call of src/calculation.ts line 149. -/
def lsolve (rows : List (List ℚ)) (rhs : List ℚ) : Option (List ℚ) :=
  if rows.length = 0 then none
  else
    let ncols := (rows.headD []).length
    if rows.length = ncols then gaussSolve ncols (rows.zip rhs)
    else
      let At := transposeQ rows
      gaussSolve ncols (At.map fun ri => ((At.map fun rj => dot ri rj), dot ri rhs))

/-! ## The damped Newton iteration (`calculate`, src/calculation.ts 112-186)

The loop is parameterised by the linear solver so that the termination
bound holds for any solver behaviour; `calculate` instantiates it with
`lsolve`.  `exit` records how the loop ended: `stepSmall` is the
`d.norm() < 1e-8` break, `aborted` the `alpha < 0.1 || n > 100` break, and
`solveError` the exception thrown by `solve`/`new Matrix` (which leaves
the current net values as they are and aborts the loop).  `outOfFuel` is
the artefact of the explicit iteration budget and is proved unreachable. -/

inductive ExitKind where
  | stepSmall
  | aborted
  | solveError
  | outOfFuel
  deriving DecidableEq

structure CalcResult where
  nets : List CalcNet
  x : List ℚ
  iterations : Nat
  alpha : ℚ
  exit : ExitKind
  deriving DecidableEq

/-- `xData[net.id] = net.value` over `new Array(nets.length)`. -/
def xInit (nets : List CalcNet) : List ℚ :=
  nets.foldl (fun s net => s.set net.id net.value) (List.replicate nets.length 0)

/-- `net.value = x.get(net.id, 0)` for every net. -/
def applyX (nets : List CalcNet) (x : List ℚ) : List CalcNet :=
  nets.map fun net => { net with value := x.getD net.id 0 }

/-- `x.add(d.scale({scale: alpha}))`. -/
def vecStep (x d : List ℚ) (alpha : ℚ) : List ℚ :=
  List.zipWith (fun a b => a + alpha * b) x d

/-- Squared Frobenius norm (`‖v‖²`). -/
def normSq (v : List ℚ) : ℚ := (v.map fun a => a * a).sum

def calcLoop (calcNodes : List CalcNode) (pn : List (Pair × Nat))
    (solver : List (List ℚ) → List ℚ → Option (List ℚ)) :
    Nat → List CalcNet → List ℚ → Option ℚ → ℚ → Nat → Nat → CalcResult
  | 0, nets, x, _, alpha, _, its => ⟨nets, x, its, alpha, .outOfFuel⟩
  | fuel + 1, nets, x, lastE2, alpha, n, its =>
    let eqs := assembleEquations calcNodes pn nets
    let b := eqs.map fun e => -e.2
    match solver (eqs.map Prod.fst) b with
    | none => ⟨nets, x, its + 1, alpha, .solveError⟩
    | some d =>
      let x' := vecStep x d alpha
      let nets' := applyX nets x'
      let e2 := normSq b
      -- `e > lastError * 0.99` on norms is `e² > lastError² * 0.99²` on squares
      let alpha' := match lastE2 with
        | some l => if e2 > (9801 / 10000 : ℚ) * l then alpha * (9 / 10) else alpha
        | none => alpha
      -- `d.norm() < 1e-8` is `‖d‖² < 1e-16`
      if normSq d < (1 / 10 ^ 16 : ℚ) then ⟨nets', x', its + 1, alpha', .stepSmall⟩
      else if alpha' < (1 / 10 : ℚ) ∨ n > 100 then ⟨nets', x', its + 1, alpha', .aborted⟩
      else calcLoop calcNodes pn solver fuel nets' x' (some e2) alpha' (n + 1) (its + 1)

/-- `calculate(calcNodes, nets)`; the iteration budget 103 is proved
sufficient below (`n > 100` stops the loop at latest in its 102nd pass). -/
def calculate (calcNodes : List CalcNode) (pn : List (Pair × Nat))
    (nets : List CalcNet)
    (solver : List (List ℚ) → List ℚ → Option (List ℚ) := lsolve) : CalcResult :=
  calcLoop calcNodes pn solver 103 nets (xInit nets) none 1 0 0

/-! ## Termination of the iteration loop (claim C7) -/

lemma calcLoop_exit_ne_outOfFuel (calcNodes : List CalcNode)
    (pn : List (Pair × Nat)) (solver : List (List ℚ) → List ℚ → Option (List ℚ)) :
    ∀ fuel nets x lastE2 alpha n its, 102 ≤ n + fuel → 1 ≤ fuel →
      (calcLoop calcNodes pn solver fuel nets x lastE2 alpha n its).exit ≠
        ExitKind.outOfFuel := by
  intro fuel
  induction fuel with
  | zero => intro _ _ _ _ _ _ _ h1; omega
  | succ fuel ih =>
    intro nets x lastE2 alpha n its hsum _
    simp only [calcLoop]
    split
    · simp
    · split
      · simp
      · split
        · simp
        · rename_i hd _ hcond
          refine ih _ _ _ _ (n + 1) (its + 1) (by omega) ?_
          have hn : n ≤ 100 := by
            by_contra hn
            exact hcond (Or.inr (by omega))
          omega

lemma calcLoop_iterations_le (calcNodes : List CalcNode)
    (pn : List (Pair × Nat)) (solver : List (List ℚ) → List ℚ → Option (List ℚ)) :
    ∀ fuel nets x lastE2 alpha n its, n ≤ 101 →
      (calcLoop calcNodes pn solver fuel nets x lastE2 alpha n its).iterations ≤
        its + (102 - n) := by
  intro fuel
  induction fuel with
  | zero => intro _ _ _ _ _ _ _; simp [calcLoop]
  | succ fuel ih =>
    intro nets x lastE2 alpha n its hn
    simp only [calcLoop]
    split
    · simp; omega
    · split
      · simp; omega
      · split
        · simp; omega
        · rename_i hd _ hcond
          have hn100 : n ≤ 100 := by
            by_contra hc
            exact hcond (Or.inr (by omega))
          calc (calcLoop calcNodes pn solver fuel _ _ _ _ (n + 1) (its + 1)).iterations
              ≤ (its + 1) + (102 - (n + 1)) := ih _ _ _ _ (n + 1) (its + 1) (by omega)
            _ ≤ its + (102 - n) := by omega

/-- C7: the iteration loop of `calculate` always terminates: for every
input (and any behaviour of the linear solver) it runs at most 102 loop
bodies — the `n > 100` cap, the `alpha < 0.1` damping floor, the
`‖δ‖ < 1e-8` convergence break and a solver exception are the only exits,
and the explicit budget is never exhausted. -/
theorem calculate_terminates (calcNodes : List CalcNode)
    (pn : List (Pair × Nat)) (nets : List CalcNet)
    (solver : List (List ℚ) → List ℚ → Option (List ℚ)) :
    (calculate calcNodes pn nets solver).exit ≠ ExitKind.outOfFuel ∧
      (calculate calcNodes pn nets solver).iterations ≤ 102 ∧
      ((calculate calcNodes pn nets solver).exit = ExitKind.stepSmall ∨
       (calculate calcNodes pn nets solver).exit = ExitKind.aborted ∨
       (calculate calcNodes pn nets solver).exit = ExitKind.solveError) := by
  have h1 := calcLoop_exit_ne_outOfFuel calcNodes pn solver 103 nets
    (xInit nets) none 1 0 0 (by omega) (by omega)
  have h2 := calcLoop_iterations_le calcNodes pn solver 103 nets
    (xInit nets) none 1 0 0 (by omega)
  refine ⟨h1, by simpa [calculate] using h2, ?_⟩
  cases hx : (calculate calcNodes pn nets solver).exit with
  | stepSmall => exact Or.inl rfl
  | aborted => exact Or.inr (Or.inl rfl)
  | solveError => exact Or.inr (Or.inr rfl)
  | outOfFuel => exact absurd hx h1

/-! ## Row-building lemmas for the node behaviours -/

lemma rowAdd_length (row : List ℚ) (i : Nat) (v : ℚ) :
    (rowAdd row i v).length = row.length := by
  simp [rowAdd]

lemma zeroRow_getD (n j : Nat) : (zeroRow n).getD j 0 = 0 := by
  rcases lt_or_le j n with h | h
  · simp [zeroRow, List.getD_eq_getElem?_getD, List.getElem?_replicate, h]
  · have hlen : (List.replicate n (0 : ℚ)).length ≤ j := by simpa using h
    simp [zeroRow, List.getD_eq_getElem?_getD, List.getElem?_eq_none hlen]

lemma rowAdd_getD (row : List ℚ) (i : Nat) (v : ℚ) (j : Nat) (hi : i < row.length) :
    (rowAdd row i v).getD j 0 =
      if j = i then row.getD j 0 + v else row.getD j 0 := by
  rcases eq_or_ne j i with rfl | hne
  · simp [rowAdd, List.getD_eq_getElem?_getD, List.getElem?_set_self', hi,
      List.getElem?_eq_getElem]
  · simp [rowAdd, List.getD_eq_getElem?_getD, List.getElem?_set_ne (Ne.symm hne), hne]

lemma pnLookup_lt {pn : List (Pair × Nat)} {L : Nat}
    (hpn : ∀ q ∈ pn, q.2 < L) {x : Pair} {i : Nat}
    (h : pnLookup pn x = some i) : i < L := by
  unfold pnLookup at h
  rcases Option.map_eq_some'.1 h with ⟨q, hq, rfl⟩
  exact hpn q (List.mem_of_find?_eq_some hq)

/-- The increment fold of `plus.calculateNode`: the entry at `j` grows by
`c` for every port mapped to net `j`. -/
lemma plus_foldl_getD (c : ℚ) (f : String → Option Nat) :
    ∀ (ports : List String) (row : List ℚ),
      (∀ pid i, f pid = some i → i < row.length) → ∀ j,
      ((ports.foldl
          (fun row portId =>
            match f portId with
            | some i => rowAdd row i c
            | none => row)
          row).getD j 0) =
        row.getD j 0 + c * ((ports.filter fun pid => f pid = some j).length : ℚ) := by
  intro ports
  induction ports with
  | nil => intro row _ j; simp
  | cons pid rest ih =>
    intro row hf j
    cases hfp : f pid with
    | none =>
      have : (decide (f pid = some j)) = false := by simp [hfp]
      simp only [List.foldl_cons, hfp, List.filter_cons, this]
      exact ih row hf j
    | some i =>
      have hi : i < row.length := hf pid i hfp
      have hlen : ∀ pid2 i2, f pid2 = some i2 → i2 < (rowAdd row i c).length := by
        intro pid2 i2 h2; rw [rowAdd_length]; exact hf pid2 i2 h2
      simp only [List.foldl_cons, hfp]
      rw [ih (rowAdd row i c) hlen j, rowAdd_getD row i c j hi]
      rcases eq_or_ne i j with rfl | hne
      · have hfilt : List.filter (fun p2 => decide (f p2 = some i)) (pid :: rest) =
            pid :: List.filter (fun p2 => decide (f p2 = some i)) rest := by
          simp [List.filter_cons, hfp]
        rw [hfilt, if_pos rfl, List.length_cons]
        push_cast
        ring
      · have hfilt : List.filter (fun p2 => decide (f p2 = some j)) (pid :: rest) =
            List.filter (fun p2 => decide (f p2 = some j)) rest := by
          simp [List.filter_cons, hfp, hne]
        rw [hfilt, if_neg (fun h => hne h.symm)]

lemma plus_foldl_length (c : ℚ) (f : String → Option Nat) :
    ∀ (ports : List String) (row : List ℚ),
      (ports.foldl
          (fun row portId =>
            match f portId with
            | some i => rowAdd row i c
            | none => row)
          row).length = row.length := by
  intro ports
  induction ports with
  | nil => intro row; rfl
  | cons pid rest ih =>
    intro row
    cases hfp : f pid with
    | none => simp only [List.foldl_cons, hfp]; exact ih row
    | some i => simp only [List.foldl_cons, hfp]; rw [ih (rowAdd row i c), rowAdd_length]

/-- C3 counterexample: the summation node's equation carries the literal
residual `0` — not `Σ(top) - Σ(bottom)` (here `3 - 1 = 2`) — and a plus
node with no connected port still contributes one equation. -/
theorem claim_C3_counterexample :
    ((calculateNode [(("p1", "top_0"), 0), (("p1", "bottom_0"), 1)]
        [⟨0, 3, []⟩, ⟨1, 1, []⟩] ⟨"p1", .plus ["top_0"] ["bottom_0"]⟩).map Prod.snd
        = [0] ∧
      netValue [⟨0, 3, []⟩, ⟨1, 1, []⟩] 0 - netValue [⟨0, 3, []⟩, ⟨1, 1, []⟩] 1 = 2 ∧
      (0 : ℚ) ≠ 2) ∧
    ((calculateNode [] [] ⟨"p2", .plus ["top_0"] ["bottom_0"]⟩).length = 1 ∧
      1 ≠ 0) := by
  refine ⟨⟨by decide, ?_, by norm_num⟩, by decide, by decide⟩
  have h0 : netValue [⟨0, 3, []⟩, ⟨1, 1, []⟩] 0 = 3 := by decide
  have h1 : netValue [⟨0, 3, []⟩, ⟨1, 1, []⟩] 1 = 1 := by decide
  rw [h0, h1]
  norm_num

/-- C3 amended: a plus node always contributes exactly one equation; its
residual is the constant `0`, and its derivative entry for net `j` is
(number of connected top ports in net `j`) − (number of connected bottom
ports in net `j`). -/
theorem claim_C3_amended (pn : List (Pair × Nat)) (nets : List CalcNet)
    (nid : String) (top bottom : List String)
    (hpn : ∀ q ∈ pn, q.2 < nets.length) :
    ∃ row : List ℚ,
      calculateNode pn nets ⟨nid, .plus top bottom⟩ = [(row, 0)] ∧
      ∀ j : Nat, row.getD j 0 =
        ((top.filter fun pid => pnLookup pn (nid, pid) = some j).length : ℚ) -
        ((bottom.filter fun pid => pnLookup pn (nid, pid) = some j).length : ℚ) := by
  have hf : ∀ pid i, pnLookup pn (nid, pid) = some i → i < nets.length := by
    intro pid i h; exact pnLookup_lt hpn h
  refine ⟨_, rfl, ?_⟩
  intro j
  have hlen1 : ∀ pid i, pnLookup pn (nid, pid) = some i →
      i < ((zeroRow nets.length)).length := by
    intro pid i h; simpa [zeroRow] using hf pid i h
  have h1 := plus_foldl_getD 1 (fun pid => pnLookup pn (nid, pid)) top
    (zeroRow nets.length) hlen1 j
  have hlen2 : ∀ pid i, pnLookup pn (nid, pid) = some i →
      i < ((top.foldl
          (fun row portId =>
            match pnLookup pn (nid, portId) with
            | some i => rowAdd row i 1
            | none => row)
          (zeroRow nets.length))).length := by
    intro pid i h
    rw [plus_foldl_length]
    simpa [zeroRow] using hf pid i h
  have h2 := plus_foldl_getD (-1) (fun pid => pnLookup pn (nid, pid)) bottom _ hlen2 j
  simp only [calculateNode, plusEquations] at *
  rw [h2, h1, zeroRow_getD]
  ring

/-- C4 counterexample: a product node with a connected top port on a net
whose value is exactly `0` still contributes its equation (no zero guard
exists in `mul.calculateNode`). -/
theorem claim_C4_counterexample :
    (calculateNode [(("m", "top_0"), 0), (("m", "bottom_0"), 1)]
        [⟨0, 0, []⟩, ⟨1, 1, []⟩] ⟨"m", .mul ["top_0"] ["bottom_0"]⟩).length = 1 ∧
    netValue [⟨0, 0, []⟩, ⟨1, 1, []⟩] 0 = 0 ∧ (1 : Nat) ≠ 0 := by
  decide

/-- C4 amended: the product node contributes exactly one equation whenever
at least one top and one bottom port are connected — regardless of any
participating net's value being zero (the division is performed without a
guard) — and the residual is `Π(top values) - Π(bottom values)`. -/
theorem claim_C4_amended (pn : List (Pair × Nat)) (nets : List CalcNet)
    (nid : String) (top bottom : List String) :
    ((calculateNode pn nets ⟨nid, .mul top bottom⟩).length =
      if (top.filterMap fun pid => pnLookup pn (nid, pid)) ≠ [] ∧
         (bottom.filterMap fun pid => pnLookup pn (nid, pid)) ≠ [] then 1 else 0) ∧
    (calculateNode pn nets ⟨nid, .mul top bottom⟩).map Prod.snd =
      (if (top.filterMap fun pid => pnLookup pn (nid, pid)) ≠ [] ∧
          (bottom.filterMap fun pid => pnLookup pn (nid, pid)) ≠ [] then
        [((top.filterMap fun pid => pnLookup pn (nid, pid)).map (netValue nets)).prod -
         ((bottom.filterMap fun pid => pnLookup pn (nid, pid)).map (netValue nets)).prod]
      else []) := by
  have hprod : ∀ l : List Nat,
      l.foldl (fun a i => a * netValue nets i) 1 = (l.map (netValue nets)).prod := by
    intro l
    rw [← List.foldl_map (netValue nets) (· * ·) l 1, List.prod_eq_foldl]
  simp only [calculateNode, mulEquations]
  split
  · rename_i h
    simp [hprod]
  · rename_i h
    simp

/-- C5 counterexample: an unlocked source node whose two terminals are in
the *same* net still contributes one equation (the code only checks that
both ports are connected, not that the nets differ). -/
theorem claim_C5_counterexample :
    (calculateNode [(("n", "a"), 0), (("n", "b"), 0)] [⟨0, 1, []⟩]
        ⟨"n", .number 0 false⟩).length = 1 ∧
    pnLookup [(("n", "a"), 0), (("n", "b"), 0)] ("n", "a") =
      pnLookup [(("n", "a"), 0), (("n", "b"), 0)] ("n", "b") ∧
    (1 : Nat) ≠ 0 := by
  decide

/-- C5 amended: an unlocked source node contributes one equation exactly
when both terminals are connected (to any nets, equal or not); the
residual is `netA.value - netB.value` and the row holds `1` at net A's
index and `-1` at net B's index, the second write overwriting the first
when both terminals share one net. -/
theorem claim_C5_amended (pn : List (Pair × Nat)) (nets : List CalcNet)
    (nid : String) (value : ℚ)
    (hpn : ∀ q ∈ pn, q.2 < nets.length) :
    ((pnLookup pn (nid, "a") = none ∨ pnLookup pn (nid, "b") = none) →
      calculateNode pn nets ⟨nid, .number value false⟩ = []) ∧
    (∀ ia ib, pnLookup pn (nid, "a") = some ia → pnLookup pn (nid, "b") = some ib →
      ∃ row : List ℚ,
        calculateNode pn nets ⟨nid, .number value false⟩ =
          [(row, netValue nets ia - netValue nets ib)] ∧
        row.getD ib 0 = -1 ∧ (ia ≠ ib → row.getD ia 0 = 1) ∧
        row.length = nets.length) := by
  constructor
  · intro h
    rcases h with h | h <;> simp [calculateNode, numberEquations, h]
  · intro ia ib ha hb
    have hia : ia < nets.length := pnLookup_lt hpn ha
    have hib : ib < nets.length := pnLookup_lt hpn hb
    refine ⟨((zeroRow nets.length).set ia 1).set ib (-1),
      by simp [calculateNode, numberEquations, ha, hb], ?_, ?_, ?_⟩
    · have hlen : ib < ((zeroRow nets.length).set ia 1).length := by
        simpa [zeroRow] using hib
      simp [List.getD_eq_getElem?_getD, List.getElem?_set_self',
        List.getElem?_eq_getElem hlen]
    · intro hne
      have hlen : ia < (zeroRow nets.length).length := by simpa [zeroRow] using hia
      simp [List.getD_eq_getElem?_getD, List.getElem?_set_ne (Ne.symm (hne)),
        List.getElem?_set_self', hlen, List.getElem?_eq_getElem]
    · simp [zeroRow]

/-- Witness for the amended C3 at a concrete plus node with one connected
top port. -/
theorem claim_C3_witness :
    (∀ q ∈ [((("p", "t"), 0) : Pair × Nat)], q.2 < ([⟨0, 5, []⟩] : List CalcNet).length) ∧
    (∃ row : List ℚ,
      calculateNode [(("p", "t"), 0)] [⟨0, 5, []⟩] ⟨"p", .plus ["t"] []⟩ = [(row, 0)] ∧
      ∀ j : Nat, row.getD j 0 =
        ((["t"].filter fun pid => pnLookup [(("p", "t"), 0)] ("p", pid) = some j).length : ℚ) -
        (([].filter fun pid => pnLookup [(("p", "t"), 0)] ("p", pid) = some j).length : ℚ)) :=
  ⟨by decide, claim_C3_amended [(("p", "t"), 0)] [⟨0, 5, []⟩] "p" ["t"] [] (by decide)⟩

/-- Witness for the amended C5 at a concrete unlocked number node with two
distinct connected nets. -/
theorem claim_C5_witness :
    (∀ q ∈ [((("n", "a"), 0) : Pair × Nat), (("n", "b"), 1)],
      q.2 < ([⟨0, 4, []⟩, ⟨1, 7, []⟩] : List CalcNet).length) ∧
    ((pnLookup [(("n", "a"), 0), (("n", "b"), 1)] ("n", "a") = none ∨
      pnLookup [(("n", "a"), 0), (("n", "b"), 1)] ("n", "b") = none) →
      calculateNode [(("n", "a"), 0), (("n", "b"), 1)] [⟨0, 4, []⟩, ⟨1, 7, []⟩]
        ⟨"n", .number 3 false⟩ = []) ∧
    (∀ ia ib, pnLookup [(("n", "a"), 0), (("n", "b"), 1)] ("n", "a") = some ia →
      pnLookup [(("n", "a"), 0), (("n", "b"), 1)] ("n", "b") = some ib →
      ∃ row : List ℚ,
        calculateNode [(("n", "a"), 0), (("n", "b"), 1)] [⟨0, 4, []⟩, ⟨1, 7, []⟩]
            ⟨"n", .number 3 false⟩ =
          [(row, netValue [⟨0, 4, []⟩, ⟨1, 7, []⟩] ia -
            netValue [⟨0, 4, []⟩, ⟨1, 7, []⟩] ib)] ∧
        row.getD ib 0 = -1 ∧ (ia ≠ ib → row.getD ia 0 = 1) ∧
        row.length = ([⟨0, 4, []⟩, ⟨1, 7, []⟩] : List CalcNet).length) := by
  refine ⟨by decide, ?_, ?_⟩
  · exact (claim_C5_amended [(("n", "a"), 0), (("n", "b"), 1)]
      [⟨0, 4, []⟩, ⟨1, 7, []⟩] "n" 3 (by decide)).1
  · exact (claim_C5_amended [(("n", "a"), 0), (("n", "b"), 1)]
      [⟨0, 4, []⟩, ⟨1, 7, []⟩] "n" 3 (by decide)).2

/-! ## Net seeding (claim C2) -/

/-- C2 counterexample: a net whose component contains two locked source
nodes configured to `5` (seed average `5`) is still created with the
constant initial value `1`. -/
theorem claim_C2_counterexample :
    (buildCalculationGraph
        [⟨"n1", .number 5 true⟩, ⟨"n2", .number 5 true⟩]
        [⟨"n1", "a", "n2", "a"⟩]).map (fun r => r.2.nets.map (·.value)) =
      Except.ok [1] ∧ (1 : ℚ) ≠ 5 := by
  constructor
  · decide
  · norm_num

/-! ## Malformed edges (claim C6) -/

/-- C6 counterexample: an edge whose target references the nonexistent
node id `X` is not skipped — `buildCalculationGraph` throws (the JS
`graphNodes[nodeId]` is `undefined` and `.ports` on it is a `TypeError`)
instead of returning normally. -/
theorem claim_C6_counterexample :
    buildCalculationGraph [⟨"n1", .number 2 true⟩] [⟨"n1", "a", "X", "p"⟩] =
      Except.error BuildErr.typeError ∧
    ("X" ∉ (["n1"] : List String)) := by
  decide

/-! ## Net-list bookkeeping lemmas for the builder -/

/-- The ports list of the net with id `j` (empty when no such net). -/
def netPortsL (nets : List CalcNet) (j : Nat) : List Pair :=
  ((nets.find? (fun n => n.id = j)).map (·.ports)).getD []

lemma find?_map_preserving (nets : List CalcNet) (g : CalcNet → CalcNet)
    (hg : ∀ n, (g n).id = n.id) (j : Nat) :
    (nets.map g).find? (fun n => n.id = j) =
      (nets.find? (fun n => n.id = j)).map g := by
  have hpred : ((fun n => decide (n.id = j)) ∘ g) = (fun n : CalcNet => decide (n.id = j)) := by
    funext n
    simp [Function.comp, hg]
  rw [List.find?_map, hpred]

lemma pushPort_id_value (nets : List CalcNet) (netId : Nat) (p : Pair) :
    (pushPort nets netId p).map (fun n => (n.id, n.value)) =
      nets.map (fun n => (n.id, n.value)) := by
  unfold pushPort
  rw [List.map_map]
  apply List.map_congr_left
  intro n _
  by_cases h : n.id = netId <;> simp [h]

lemma pushPort_length (nets : List CalcNet) (netId : Nat) (p : Pair) :
    (pushPort nets netId p).length = nets.length := by
  simp [pushPort]

lemma netPortsL_pushPort_ne (nets : List CalcNet) (netId : Nat) (p : Pair)
    (j : Nat) (hj : j ≠ netId) :
    netPortsL (pushPort nets netId p) j = netPortsL nets j := by
  unfold netPortsL pushPort
  rw [find?_map_preserving]
  · cases hf : nets.find? (fun n => n.id = j) with
    | none => simp
    | some n =>
      have hid : n.id = j := by simpa using List.find?_some hf
      simp [hid, hj]
  · intro n; by_cases h : n.id = netId <;> simp [h]

lemma netPortsL_pushPort_self (nets : List CalcNet) (netId : Nat) (p : Pair)
    (hex : (nets.find? (fun n => n.id = netId)).isSome) :
    netPortsL (pushPort nets netId p) netId = netPortsL nets netId ++ [p] := by
  unfold netPortsL pushPort
  rw [find?_map_preserving]
  · cases hf : nets.find? (fun n => n.id = netId) with
    | none => rw [hf] at hex; simp at hex
    | some n =>
      have hid : n.id = netId := by simpa using List.find?_some hf
      simp [hid]
  · intro n; by_cases h : n.id = netId <;> simp [h]

lemma pushPort_find_isSome (nets : List CalcNet) (netId : Nat) (p : Pair)
    (j : Nat) :
    (((pushPort nets netId p).find? (fun n => n.id = j)).isSome) =
      ((nets.find? (fun n => n.id = j)).isSome) := by
  unfold pushPort
  rw [find?_map_preserving]
  · cases nets.find? (fun n => n.id = j) <;> simp
  · intro n; by_cases h : n.id = netId <;> simp [h]

/-! ## Traversal lemmas (the component-collection worklist) -/

section Traverse

variable (ids : List String) (cns : Pair → List Pair) (netId : Nat)

/-- The traversal only appends ports to nets: ids, values and the net
count are untouched. -/
lemma traverse_nets_shape : ∀ (fuel : Nat) (border seen : List Pair)
    (st st' : BuildState),
    traverse ids cns netId fuel border seen st = .ok st' →
    st'.nets.map (fun n => (n.id, n.value)) =
      st.nets.map (fun n => (n.id, n.value)) := by
  intro fuel
  induction fuel with
  | zero =>
    intro border seen st st' h
    cases border with
    | nil => simp only [traverse] at h; cases h; rfl
    | cons p rest => simp only [traverse] at h; cases h
  | succ fuel ih =>
    intro border seen st st' h
    cases border with
    | nil => simp only [traverse] at h; cases h; rfl
    | cons p rest =>
      simp only [traverse] at h
      by_cases hp : p ∈ seen
      · rw [if_pos hp] at h
        exact ih _ _ _ _ h
      · rw [if_neg hp] at h
        by_cases hid : p.1 ∈ ids
        · rw [if_pos hid] at h
          rw [ih _ _ _ _ h]
          exact pushPort_id_value _ _ _
        · rw [if_neg hid] at h; cases h

/-- Nets other than the one being collected are untouched. -/
lemma traverse_frame : ∀ (fuel : Nat) (border seen : List Pair)
    (st st' : BuildState),
    traverse ids cns netId fuel border seen st = .ok st' →
    ∀ j, j ≠ netId → netPortsL st'.nets j = netPortsL st.nets j := by
  intro fuel
  induction fuel with
  | zero =>
    intro border seen st st' h
    cases border with
    | nil => simp only [traverse] at h; cases h; intro j _; rfl
    | cons p rest => simp only [traverse] at h; cases h
  | succ fuel ih =>
    intro border seen st st' h
    cases border with
    | nil => simp only [traverse] at h; cases h; intro j _; rfl
    | cons p rest =>
      simp only [traverse] at h
      by_cases hp : p ∈ seen
      · rw [if_pos hp] at h
        exact ih _ _ _ _ h
      · rw [if_neg hp] at h
        by_cases hid : p.1 ∈ ids
        · rw [if_pos hid] at h
          intro j hj
          rw [ih _ _ _ _ h j hj]
          exact netPortsL_pushPort_ne _ _ _ _ hj
        · rw [if_neg hid] at h; cases h

/-- The collected net's ports list only grows (by appending). -/
lemma traverse_mono : ∀ (fuel : Nat) (border seen : List Pair)
    (st st' : BuildState),
    traverse ids cns netId fuel border seen st = .ok st' →
    (st.nets.find? (fun n => n.id = netId)).isSome →
    ∃ added, netPortsL st'.nets netId = netPortsL st.nets netId ++ added := by
  intro fuel
  induction fuel with
  | zero =>
    intro border seen st st' h
    cases border with
    | nil => simp only [traverse] at h; cases h; exact fun _ => ⟨[], by simp⟩
    | cons p rest => simp only [traverse] at h; cases h
  | succ fuel ih =>
    intro border seen st st' h hex
    cases border with
    | nil => simp only [traverse] at h; cases h; exact ⟨[], by simp⟩
    | cons p rest =>
      simp only [traverse] at h
      by_cases hp : p ∈ seen
      · rw [if_pos hp] at h
        exact ih _ _ _ _ h hex
      · rw [if_neg hp] at h
        by_cases hid : p.1 ∈ ids
        · rw [if_pos hid] at h
          have hex1 : ((pushPort st.nets netId p).find?
              (fun n => n.id = netId)).isSome := by
            rw [pushPort_find_isSome]; exact hex
          rcases ih _ _ _ _ h hex1 with ⟨added, hadd⟩
          refine ⟨p :: added, ?_⟩
          rw [hadd]
          show netPortsL (pushPort st.nets netId p) netId ++ added = _
          rw [netPortsL_pushPort_self _ _ _ hex]
          simp
        · rw [if_neg hid] at h; cases h

/-- Every border pair ends up either collected or already seen. -/
lemma traverse_border_covered : ∀ (fuel : Nat) (border seen : List Pair)
    (st st' : BuildState),
    traverse ids cns netId fuel border seen st = .ok st' →
    (st.nets.find? (fun n => n.id = netId)).isSome →
    ∀ b ∈ border, b ∈ netPortsL st'.nets netId ∨ b ∈ seen := by
  intro fuel
  induction fuel with
  | zero =>
    intro border seen st st' h
    cases border with
    | nil => intro _ b hb; cases hb
    | cons p rest => simp only [traverse] at h; cases h
  | succ fuel ih =>
    intro border seen st st' h hex
    cases border with
    | nil => intro b hb; cases hb
    | cons p rest =>
      simp only [traverse] at h
      by_cases hp : p ∈ seen
      · rw [if_pos hp] at h
        intro b hb
        rcases List.mem_cons.1 hb with rfl | hb
        · exact Or.inr hp
        · exact ih _ _ _ _ h hex b hb
      · rw [if_neg hp] at h
        by_cases hid : p.1 ∈ ids
        · rw [if_pos hid] at h
          have hex1 : ((pushPort st.nets netId p).find?
              (fun n => n.id = netId)).isSome := by
            rw [pushPort_find_isSome]; exact hex
          have hpfin : p ∈ netPortsL st'.nets netId := by
            rcases traverse_mono ids cns netId _ _ _ _ _ h hex1 with ⟨added, hadd⟩
            rw [hadd]
            show p ∈ netPortsL (pushPort st.nets netId p) netId ++ added
            rw [netPortsL_pushPort_self _ _ _ hex]
            simp
          intro b hb
          rcases List.mem_cons.1 hb with rfl | hb
          · exact Or.inl hpfin
          · rcases ih _ _ _ _ h hex1 b (by simp [hb]) with hfin | hseen
            · exact Or.inl hfin
            · rcases List.mem_cons.1 hseen with rfl | hseen
              · exact Or.inl hpfin
              · exact Or.inr hseen
        · rw [if_neg hid] at h; cases h

/-- Everything newly collected is reachable from the border along the
connection map. -/
lemma traverse_sound : ∀ (fuel : Nat) (border seen : List Pair)
    (st st' : BuildState),
    traverse ids cns netId fuel border seen st = .ok st' →
    (st.nets.find? (fun n => n.id = netId)).isSome →
    ∀ z, z ∈ netPortsL st'.nets netId →
      z ∈ netPortsL st.nets netId ∨
        ∃ b ∈ border, Relation.ReflTransGen (fun u v => v ∈ cns u) b z := by
  intro fuel
  induction fuel with
  | zero =>
    intro border seen st st' h
    cases border with
    | nil => simp only [traverse] at h; cases h; exact fun _ z hz => Or.inl hz
    | cons p rest => simp only [traverse] at h; cases h
  | succ fuel ih =>
    intro border seen st st' h hex
    cases border with
    | nil => simp only [traverse] at h; cases h; exact fun z hz => Or.inl hz
    | cons p rest =>
      simp only [traverse] at h
      by_cases hp : p ∈ seen
      · rw [if_pos hp] at h
        intro z hz
        rcases ih _ _ _ _ h hex z hz with hold | ⟨b, hb, hr⟩
        · exact Or.inl hold
        · exact Or.inr ⟨b, by simp [hb], hr⟩
      · rw [if_neg hp] at h
        by_cases hid : p.1 ∈ ids
        · rw [if_pos hid] at h
          have hex1 : ((pushPort st.nets netId p).find?
              (fun n => n.id = netId)).isSome := by
            rw [pushPort_find_isSome]; exact hex
          intro z hz
          have hmid : netPortsL (pushPort st.nets netId p) netId =
              netPortsL st.nets netId ++ [p] :=
            netPortsL_pushPort_self _ _ _ hex
          rcases ih _ _ _ _ h hex1 z hz with hold | ⟨b, hb, hr⟩
          · -- z was present after pushing p: either old or z = p
            have hold2 : z ∈ netPortsL st.nets netId ++ [p] := by
              rw [← hmid]; exact hold
            rcases List.mem_append.1 hold2 with hold | hpz
            · exact Or.inl hold
            · refine Or.inr ⟨p, by simp, ?_⟩
              rcases List.mem_singleton.1 hpz with rfl
              exact Relation.ReflTransGen.refl
          · rcases List.mem_append.1 hb with hcns | hrest
            · refine Or.inr ⟨p, by simp, ?_⟩
              exact Relation.ReflTransGen.head (List.mem_reverse.1 hcns) hr
            · exact Or.inr ⟨b, by simp [hrest], hr⟩
        · rw [if_neg hid] at h; cases h

/-- Every newly collected pair was unseen, and all its neighbours end up
collected or seen. -/
lemma traverse_closed : ∀ (fuel : Nat) (border seen : List Pair)
    (st st' : BuildState),
    traverse ids cns netId fuel border seen st = .ok st' →
    (st.nets.find? (fun n => n.id = netId)).isSome →
    ∀ z, z ∈ netPortsL st'.nets netId → z ∉ netPortsL st.nets netId →
      z ∉ seen ∧ ∀ w ∈ cns z, w ∈ netPortsL st'.nets netId ∨ w ∈ seen := by
  intro fuel
  induction fuel with
  | zero =>
    intro border seen st st' h
    cases border with
    | nil =>
      simp only [traverse] at h; cases h
      exact fun _ z hz hnz => absurd hz hnz
    | cons p rest => simp only [traverse] at h; cases h
  | succ fuel ih =>
    intro border seen st st' h hex
    cases border with
    | nil =>
      simp only [traverse] at h; cases h
      exact fun z hz hnz => absurd hz hnz
    | cons p rest =>
      simp only [traverse] at h
      by_cases hp : p ∈ seen
      · rw [if_pos hp] at h
        exact ih _ _ _ _ h hex
      · rw [if_neg hp] at h
        by_cases hid : p.1 ∈ ids
        · rw [if_pos hid] at h
          have hex1 : ((pushPort st.nets netId p).find?
              (fun n => n.id = netId)).isSome := by
            rw [pushPort_find_isSome]; exact hex
          have hmid : netPortsL (pushPort st.nets netId p) netId =
              netPortsL st.nets netId ++ [p] :=
            netPortsL_pushPort_self _ _ _ hex
          have hpfin : p ∈ netPortsL st'.nets netId := by
            rcases traverse_mono ids cns netId _ _ _ _ _ h hex1 with ⟨added, hadd⟩
            rw [hadd]
            show p ∈ netPortsL (pushPort st.nets netId p) netId ++ added
            rw [hmid]; simp
          intro z hz hnz
          by_cases hzmid : z ∈ netPortsL (pushPort st.nets netId p) netId
          · -- z = p (it is in the pushed list but not the old one)
            rw [hmid] at hzmid
            rcases List.mem_append.1 hzmid with hzold | hzp
            · exact absurd hzold hnz
            · rcases List.mem_singleton.1 hzp with rfl
              refine ⟨hp, ?_⟩
              intro w hw
              have hwb : w ∈ (cns z).reverse ++ rest := by
                simp [hw]
              rcases traverse_border_covered ids cns netId _ _ _ _ _ h hex1 w hwb with
                hfin | hseen
              · exact Or.inl hfin
              · rcases List.mem_cons.1 hseen with rfl | hseen
                · exact Or.inl hpfin
                · exact Or.inr hseen
          · rcases ih _ _ _ _ h hex1 z hz hzmid with ⟨hzs, hnb⟩
            refine ⟨fun hc => hzs (by simp [hc]), ?_⟩
            intro w hw
            rcases hnb w hw with hfin | hseen
            · exact Or.inl hfin
            · rcases List.mem_cons.1 hseen with rfl | hseen
              · exact Or.inl hpfin
              · exact Or.inr hseen
        · rw [if_neg hid] at h; cases h

/-- Every newly collected pair names a node of the diagram. -/
lemma traverse_listed : ∀ (fuel : Nat) (border seen : List Pair)
    (st st' : BuildState),
    traverse ids cns netId fuel border seen st = .ok st' →
    (st.nets.find? (fun n => n.id = netId)).isSome →
    ∀ z, z ∈ netPortsL st'.nets netId →
      z ∈ netPortsL st.nets netId ∨ z.1 ∈ ids := by
  intro fuel
  induction fuel with
  | zero =>
    intro border seen st st' h
    cases border with
    | nil => simp only [traverse] at h; cases h; exact fun _ z hz => Or.inl hz
    | cons p rest => simp only [traverse] at h; cases h
  | succ fuel ih =>
    intro border seen st st' h hex
    cases border with
    | nil => simp only [traverse] at h; cases h; exact fun z hz => Or.inl hz
    | cons p rest =>
      simp only [traverse] at h
      by_cases hp : p ∈ seen
      · rw [if_pos hp] at h
        exact ih _ _ _ _ h hex
      · rw [if_neg hp] at h
        by_cases hid : p.1 ∈ ids
        · rw [if_pos hid] at h
          have hex1 : ((pushPort st.nets netId p).find?
              (fun n => n.id = netId)).isSome := by
            rw [pushPort_find_isSome]; exact hex
          intro z hz
          have hpush : netPortsL (pushPort st.nets netId p) netId =
              netPortsL st.nets netId ++ [p] :=
            netPortsL_pushPort_self _ _ _ hex
          rcases ih _ _ _ _ h hex1 z hz with hmid | hzid
          · have hmid2 : z ∈ netPortsL st.nets netId ++ [p] := by
              rw [← hpush]; exact hmid
            rcases List.mem_append.1 hmid2 with hold | hzp
            · exact Or.inl hold
            · rcases List.mem_singleton.1 hzp with rfl
              exact Or.inr hid
          · exact Or.inr hzid
        · rw [if_neg hid] at h; cases h

/-- The ports map only grows (new entries are prepended). -/
lemma traverse_portNet_extend : ∀ (fuel : Nat) (border seen : List Pair)
    (st st' : BuildState),
    traverse ids cns netId fuel border seen st = .ok st' →
    ∃ pre : List (Pair × Nat), st'.portNet = pre ++ st.portNet ∧
      ∀ q ∈ pre, q.2 = netId := by
  intro fuel
  induction fuel with
  | zero =>
    intro border seen st st' h
    cases border with
    | nil =>
      simp only [traverse] at h; cases h
      exact ⟨[], by simp⟩
    | cons p rest => simp only [traverse] at h; cases h
  | succ fuel ih =>
    intro border seen st st' h
    cases border with
    | nil =>
      simp only [traverse] at h; cases h
      exact ⟨[], by simp⟩
    | cons p rest =>
      simp only [traverse] at h
      by_cases hp : p ∈ seen
      · rw [if_pos hp] at h
        exact ih _ _ _ _ h
      · rw [if_neg hp] at h
        by_cases hid : p.1 ∈ ids
        · rw [if_pos hid] at h
          rcases ih _ _ _ _ h with ⟨pre, hpre, hval⟩
          refine ⟨pre ++ [(p, netId)], by simp [hpre], ?_⟩
          intro q hq
          rcases List.mem_append.1 hq with hq | hq
          · exact hval q hq
          · rcases List.mem_singleton.1 hq with rfl; rfl
        · rw [if_neg hid] at h; cases h

/-- The book-keeping relation between the ports map and the nets list is
preserved by the traversal. -/
lemma traverse_sync : ∀ (fuel : Nat) (border seen : List Pair)
    (st st' : BuildState),
    traverse ids cns netId fuel border seen st = .ok st' →
    (st.nets.find? (fun n => n.id = netId)).isSome →
    (∀ (p : Pair) (j : Nat), (p, j) ∈ st.portNet ↔ p ∈ netPortsL st.nets j) →
    ∀ (p : Pair) (j : Nat), (p, j) ∈ st'.portNet ↔ p ∈ netPortsL st'.nets j := by
  intro fuel
  induction fuel with
  | zero =>
    intro border seen st st' h
    cases border with
    | nil => simp only [traverse] at h; cases h; exact fun _ hs => hs
    | cons p rest => simp only [traverse] at h; cases h
  | succ fuel ih =>
    intro border seen st st' h hex hsync
    cases border with
    | nil => simp only [traverse] at h; cases h; exact hsync
    | cons p rest =>
      simp only [traverse] at h
      by_cases hp : p ∈ seen
      · rw [if_pos hp] at h
        exact ih _ _ _ _ h hex hsync
      · rw [if_neg hp] at h
        by_cases hid : p.1 ∈ ids
        · rw [if_pos hid] at h
          have hex1 : ((pushPort st.nets netId p).find?
              (fun n => n.id = netId)).isSome := by
            rw [pushPort_find_isSome]; exact hex
          refine ih _ _ _ _ h hex1 ?_
          intro q j
          show (q, j) ∈ (p, netId) :: st.portNet ↔
            q ∈ netPortsL (pushPort st.nets netId p) j
          by_cases hj : j = netId
          · rw [hj, netPortsL_pushPort_self _ _ _ hex]
            constructor
            · intro hq
              rcases List.mem_cons.1 hq with hq | hq
              · simp only [Prod.mk.injEq] at hq
                rcases hq with ⟨rfl, -⟩
                simp
              · exact List.mem_append.2 (Or.inl ((hsync q netId).1 hq))
            · intro hq
              rcases List.mem_append.1 hq with hq | hq
              · exact List.mem_cons.2 (Or.inr ((hsync q netId).2 hq))
              · rcases List.mem_singleton.1 hq with rfl
                exact List.mem_cons.2 (Or.inl rfl)
          · rw [netPortsL_pushPort_ne _ _ _ _ hj]
            constructor
            · intro hq
              rcases List.mem_cons.1 hq with hq | hq
              · simp only [Prod.mk.injEq] at hq
                exact absurd hq.2 hj
              · exact (hsync q j).1 hq
            · intro hq
              exact List.mem_cons.2 (Or.inr ((hsync q j).2 hq))
        · rw [if_neg hid] at h; cases h

/-- A fresh traversal started on a single seed with nothing seen collects
exactly the connected component of the seed. -/
lemma traverse_component (fuel : Nat) (seed : Pair) (st st' : BuildState)
    (h : traverse ids cns netId fuel [seed] [] st = .ok st')
    (hex : (st.nets.find? (fun n => n.id = netId)).isSome)
    (hempty : netPortsL st.nets netId = []) :
    ∀ z, z ∈ netPortsL st'.nets netId ↔
      Relation.ReflTransGen (fun u v => v ∈ cns u) seed z := by
  intro z
  constructor
  · intro hz
    rcases traverse_sound ids cns netId fuel _ _ _ _ h hex z hz with hold | ⟨b, hb, hr⟩
    · rw [hempty] at hold; cases hold
    · rcases List.mem_singleton.1 hb with rfl
      exact hr
  · intro hr
    induction hr with
    | refl =>
      rcases traverse_border_covered ids cns netId fuel _ _ _ _ h hex seed
        (by simp) with hfin | hseen
      · exact hfin
      · cases hseen
    | tail hub hbc ih =>
      rename_i b c
      have hb := ih
      have hnb : b ∉ netPortsL st.nets netId := by rw [hempty]; simp
      rcases (traverse_closed ids cns netId fuel _ _ _ _ h hex b hb hnb).2 c hbc with
        hfin | hseen
      · exact hfin
      · cases hseen

end Traverse

/-! ## The edge adjacency relation -/

lemma mem_edgeConnsAt {x y : Pair} {e : GraphEdge} :
    y ∈ edgeConnsAt x e ↔
      ((x = (e.source, e.sourceHandle) ∧ y = (e.target, e.targetHandle)) ∨
       (x = (e.target, e.targetHandle) ∧ y = (e.source, e.sourceHandle))) := by
  unfold edgeConnsAt
  by_cases h1 : (e.source, e.sourceHandle) = x <;>
    by_cases h2 : (e.target, e.targetHandle) = x <;>
      simp [h1, h2, eq_comm] <;> tauto

lemma mem_conns {edges : List GraphEdge} {x y : Pair} :
    y ∈ conns edges x ↔ ∃ e ∈ edges,
      ((x = (e.source, e.sourceHandle) ∧ y = (e.target, e.targetHandle)) ∨
       (x = (e.target, e.targetHandle) ∧ y = (e.source, e.sourceHandle))) := by
  unfold conns
  rw [List.mem_flatMap]
  constructor
  · rintro ⟨e, he, hy⟩
    exact ⟨e, he, mem_edgeConnsAt.1 hy⟩
  · rintro ⟨e, he, hy⟩
    exact ⟨e, he, mem_edgeConnsAt.2 hy⟩

lemma conns_symm {edges : List GraphEdge} {x y : Pair} :
    y ∈ conns edges x ↔ x ∈ conns edges y := by
  rw [mem_conns, mem_conns]
  constructor <;> (rintro ⟨e, he, h⟩; exact ⟨e, he, by tauto⟩)

lemma conns_ne_nil {edges : List GraphEdge} {x : Pair} :
    conns edges x ≠ [] ↔ ∃ e ∈ edges,
      (x = (e.source, e.sourceHandle) ∨ x = (e.target, e.targetHandle)) := by
  constructor
  · intro h
    have hex : ∃ y, y ∈ conns edges x := by
      cases hc : conns edges x with
      | nil => exact absurd hc h
      | cons a l => exact ⟨a, by simp [hc]⟩
    rcases hex with ⟨y, hy⟩
    rcases mem_conns.1 hy with ⟨e, he, hc⟩
    exact ⟨e, he, by tauto⟩
  · rintro ⟨e, he, hx⟩
    rcases hx with hx | hx
    · intro hnil
      have : (e.target, e.targetHandle) ∈ conns edges x :=
        mem_conns.2 ⟨e, he, Or.inl ⟨hx, rfl⟩⟩
      rw [hnil] at this; cases this
    · intro hnil
      have : (e.source, e.sourceHandle) ∈ conns edges x :=
        mem_conns.2 ⟨e, he, Or.inr ⟨hx, rfl⟩⟩
      rw [hnil] at this; cases this

lemma dedupFirstAux_mem [DecidableEq α] (a : α) :
    ∀ (l seenKeys : List α),
      a ∈ dedupFirstAux l seenKeys ↔ (a ∈ l ∧ a ∉ seenKeys) := by
  intro l
  induction l with
  | nil => intro seenKeys; simp [dedupFirstAux]
  | cons b l ih =>
    intro seenKeys
    unfold dedupFirstAux
    by_cases hb : b ∈ seenKeys
    · rw [if_pos hb, ih]
      constructor
      · rintro ⟨h1, h2⟩; exact ⟨by simp [h1], h2⟩
      · rintro ⟨h1, h2⟩
        rcases List.mem_cons.1 h1 with rfl | h1
        · exact absurd hb h2
        · exact ⟨h1, h2⟩
    · rw [if_neg hb]
      by_cases hab : a = b
      · subst hab; simp [hb]
      · constructor
        · intro h
          rcases List.mem_cons.1 h with rfl | h
          · exact absurd rfl hab
          · rcases (ih _).1 h with ⟨h1, h2⟩
            refine ⟨by simp [h1], fun hc => h2 (by simp [hc])⟩
        · rintro ⟨h1, h2⟩
          rcases List.mem_cons.1 h1 with rfl | h1
          · exact absurd rfl hab
          · exact List.mem_cons.2 (Or.inr ((ih _).2
              ⟨h1, by simp [hab, h2]⟩))

lemma dedupFirst_mem [DecidableEq α] (a : α) (l : List α) :
    a ∈ dedupFirst l ↔ a ∈ l := by
  rw [dedupFirst, dedupFirstAux_mem]; simp

lemma mem_nodePortMentions {edges : List GraphEdge} {n : String} {portId : String} :
    portId ∈ nodePortMentions edges n ↔ ∃ e ∈ edges,
      ((n, portId) = (e.source, e.sourceHandle) ∨
       (n, portId) = (e.target, e.targetHandle)) := by
  unfold nodePortMentions
  rw [List.mem_flatMap]
  constructor
  · rintro ⟨e, he, h⟩
    refine ⟨e, he, ?_⟩
    rcases List.mem_append.1 h with h | h
    · by_cases hs : e.source = n
      · rw [if_pos hs] at h
        rcases List.mem_singleton.1 h with rfl
        exact Or.inl (by simp [hs])
      · rw [if_neg hs] at h; cases h
    · by_cases ht : e.target = n
      · rw [if_pos ht] at h
        rcases List.mem_singleton.1 h with rfl
        exact Or.inr (by simp [ht])
      · rw [if_neg ht] at h; cases h
  · rintro ⟨e, he, h | h⟩ <;> refine ⟨e, he, ?_⟩
    · have h1 : e.source = n := by
        simpa using congrArg Prod.fst h.symm
      have h2 : e.sourceHandle = portId := by
        simpa using congrArg Prod.snd h.symm
      simp [h1, h2]
    · have h1 : e.target = n := by
        simpa using congrArg Prod.fst h.symm
      have h2 : e.targetHandle = portId := by
        simpa using congrArg Prod.snd h.symm
      simp [h1, h2]

lemma portKeys_iff {edges : List GraphEdge} {n portId : String} :
    portId ∈ portKeys edges n ↔ conns edges (n, portId) ≠ [] := by
  rw [portKeys, dedupFirst_mem, mem_nodePortMentions, conns_ne_nil]

lemma pnLookup_isSome_iff {pn : List (Pair × Nat)} {x : Pair} :
    (pnLookup pn x).isSome ↔ ∃ j, (x, j) ∈ pn := by
  unfold pnLookup
  rw [Option.isSome_map']
  rw [List.find?_isSome]
  constructor
  · rintro ⟨q, hq, hq1⟩
    refine ⟨q.2, ?_⟩
    have : q = (x, q.2) := by
      have := of_decide_eq_true hq1
      exact Prod.ext this rfl
    rwa [this] at hq
  · rintro ⟨j, hj⟩
    exact ⟨(x, j), hj, by simp⟩

/-! ## The builder invariant -/

/-- Undirected adjacency of port pairs induced by the edge list. -/
def adjE (edges : List GraphEdge) (u v : Pair) : Prop := v ∈ conns edges u

lemma adjE_symmetric (edges : List GraphEdge) : Symmetric (adjE edges) :=
  fun _ _ h => conns_symm.1 h

/-- When the list's ids are `k, k+1, ...` positionally, `find?` by id is
positional lookup. -/
lemma find?_of_ids_shifted : ∀ (nets : List CalcNet) (k : Nat),
    (∀ (i : Nat) (n : CalcNet), nets[i]? = some n → n.id = k + i) →
    ∀ j, nets.find? (fun n => n.id = j) =
      if k ≤ j then nets[j - k]? else none := by
  intro nets
  induction nets with
  | nil => intro k _ j; simp
  | cons m rest ih =>
    intro k hids j
    have hm : m.id = k := by simpa using hids 0 m (by simp)
    have hrest : ∀ (i : Nat) (n : CalcNet), rest[i]? = some n → n.id = (k + 1) + i := by
      intro i n hn
      have : (m :: rest)[i + 1]? = some n := by simpa using hn
      have := hids (i + 1) n this
      omega
    by_cases hkj : k = j
    · subst hkj
      simp [List.find?_cons, hm]
    · rw [List.find?_cons]
      have hmne : (decide (m.id = j)) = false := by simp [hm, hkj]
      rw [hmne, ih (k + 1) hrest j]
      by_cases hle : k ≤ j
      · have hlt : k + 1 ≤ j := by omega
        rw [if_pos hlt, if_pos hle]
        have : j - k = (j - (k + 1)) + 1 := by omega
        rw [this]
        simp
      · rw [if_neg (by omega), if_neg hle]

lemma find?_of_ids (nets : List CalcNet)
    (hids : ∀ (i : Nat) (n : CalcNet), nets[i]? = some n → n.id = i) (j : Nat) :
    nets.find? (fun n => n.id = j) = nets[j]? := by
  have := find?_of_ids_shifted nets 0 (by simpa using hids) j
  simpa using this

lemma netPortsL_of_ids (nets : List CalcNet)
    (hids : ∀ (i : Nat) (n : CalcNet), nets[i]? = some n → n.id = i) (j : Nat) :
    netPortsL nets j = ((nets[j]?).map (·.ports)).getD [] := by
  rw [netPortsL, find?_of_ids nets hids j]

/-- The invariant maintained by the create-all-ports loop. -/
structure BuildInv (ids : List String) (edges : List GraphEdge)
    (st : BuildState) : Prop where
  idsVals : ∀ (i : Nat) (n : CalcNet), st.nets[i]? = some n →
    n.id = i ∧ n.value = 1
  comp : ∀ j, j < st.nets.length → ∃ s : Pair, s.1 ∈ ids ∧
    conns edges s ≠ [] ∧
    ∀ p : Pair, (p ∈ netPortsL st.nets j ↔
      Relation.ReflTransGen (adjE edges) s p)
  sync : ∀ (p : Pair) (j : Nat),
    ((p, j) ∈ st.portNet ↔ p ∈ netPortsL st.nets j)
  listed : ∀ (j : Nat), ∀ p ∈ netPortsL st.nets j, p.1 ∈ ids
  disj : ∀ (j k : Nat) (p : Pair),
    p ∈ netPortsL st.nets j → p ∈ netPortsL st.nets k → j = k

lemma BuildInv.start (ids : List String) (edges : List GraphEdge) :
    BuildInv ids edges ⟨[], []⟩ := by
  refine ⟨?_, ?_, ?_, ?_, ?_⟩
  · intro i n h; simp at h
  · intro j hj; simp at hj
  · intro p j; simp [netPortsL]
  · intro j p hp; simp [netPortsL] at hp
  · intro j k p hp; simp [netPortsL] at hp

lemma BuildInv.netPortsL_ge {ids edges st} (inv : BuildInv ids edges st)
    {j : Nat} (hj : st.nets.length ≤ j) : netPortsL st.nets j = [] := by
  rw [netPortsL_of_ids st.nets (fun i n h => (inv.idsVals i n h).1) j]
  rw [List.getElem?_eq_none hj]
  rfl

/-- Master lemma for the inner loop: the invariant is preserved, the ports
map only grows, and every processed port key ends up assigned. -/
lemma buildPortsNode_master (ids : List String) (edges : List GraphEdge)
    (nid : String) (hnid : nid ∈ ids) :
    ∀ (pl : List String) (st st' : BuildState),
      (∀ portId ∈ pl, portId ∈ portKeys edges nid) →
      buildPortsNode ids edges nid pl st = .ok st' →
      BuildInv ids edges st →
      BuildInv ids edges st' ∧
        (∀ q ∈ st.portNet, q ∈ st'.portNet) ∧
        (∀ portId ∈ pl, (pnLookup st'.portNet (nid, portId)).isSome) := by
  intro pl
  induction pl with
  | nil =>
    intro st st' _ h inv
    simp only [buildPortsNode] at h
    cases h
    exact ⟨inv, fun q hq => hq, by simp⟩
  | cons portId rest ih =>
    intro st st' hsub h inv
    simp only [buildPortsNode] at h
    by_cases hg : (pnLookup st.portNet (nid, portId)).isSome
    · rw [if_pos hg] at h
      obtain ⟨inv', mono', cov'⟩ :=
        ih st st' (fun q hq => hsub q (by simp [hq])) h inv
      refine ⟨inv', mono', ?_⟩
      intro q hq
      rcases List.mem_cons.1 hq with heq | hq
      · subst heq
        rcases pnLookup_isSome_iff.1 hg with ⟨j, hj⟩
        exact pnLookup_isSome_iff.2 ⟨j, mono' _ hj⟩
      · exact cov' q hq
    · rw [if_neg hg] at h
      cases htr : traverse ids (conns edges) st.nets.length (bigFuel edges)
          [(nid, portId)] []
          { st with nets := st.nets ++ [(⟨st.nets.length, 1, []⟩ : CalcNet)] } with
      | error e =>
        rw [htr] at h
        have h2 : (Except.error e : Except BuildErr BuildState) = .ok st' := h
        cases h2
      | ok st2 =>
        rw [htr] at h
        have h2 : buildPortsNode ids edges nid rest st2 = .ok st' := h
        -- notation for the intermediate state with the freshly created net
        have hpk : portId ∈ portKeys edges nid := hsub portId (by simp)
        have hids : ∀ (i : Nat) (n : CalcNet), st.nets[i]? = some n → n.id = i :=
          fun i n hn => (inv.idsVals i n hn).1
        have hids1 : ∀ (i : Nat) (n : CalcNet),
            (st.nets ++ [(⟨st.nets.length, 1, []⟩ : CalcNet)])[i]? = some n →
            n.id = i ∧ n.value = 1 := by
          intro i n hn
          rcases lt_trichotomy i st.nets.length with hi | hi | hi
          · rw [List.getElem?_append_left hi] at hn
            exact inv.idsVals i n hn
          · subst hi
            rw [List.getElem?_concat_length st.nets _] at hn
            cases hn
            exact ⟨rfl, rfl⟩
          · have : (st.nets ++ [(⟨st.nets.length, 1, []⟩ : CalcNet)]).length ≤ i := by
              simp; omega
            rw [List.getElem?_eq_none this] at hn
            cases hn
        have hnew : (st.nets ++ [(⟨st.nets.length, 1, []⟩ : CalcNet)])[st.nets.length]? =
            some ⟨st.nets.length, 1, []⟩ := List.getElem?_concat_length st.nets _
        have hex1 : (((st.nets ++ [(⟨st.nets.length, 1, []⟩ : CalcNet)]).find?
            (fun n => n.id = st.nets.length))).isSome := by
          rw [find?_of_ids _ (fun i n hn => (hids1 i n hn).1), hnew]
          rfl
        have hempty1 : netPortsL (st.nets ++ [(⟨st.nets.length, 1, []⟩ : CalcNet)])
            st.nets.length = [] := by
          rw [netPortsL_of_ids _ (fun i n hn => (hids1 i n hn).1), hnew]
          rfl
        have hApp : ∀ j, j < st.nets.length →
            netPortsL (st.nets ++ [(⟨st.nets.length, 1, []⟩ : CalcNet)]) j =
              netPortsL st.nets j := by
          intro j hj
          rw [netPortsL_of_ids _ (fun i n hn => (hids1 i n hn).1),
            List.getElem?_append_left hj, ← netPortsL_of_ids st.nets hids]
        have hAppGe : ∀ j, st.nets.length < j →
            netPortsL (st.nets ++ [(⟨st.nets.length, 1, []⟩ : CalcNet)]) j = [] := by
          intro j hj
          rw [netPortsL_of_ids _ (fun i n hn => (hids1 i n hn).1)]
          have : (st.nets ++ [(⟨st.nets.length, 1, []⟩ : CalcNet)]).length ≤ j := by
            simp; omega
          rw [List.getElem?_eq_none this]
          rfl
        -- facts transported through the traversal
        have hshape := traverse_nets_shape ids (conns edges) st.nets.length
          _ _ _ _ _ htr
        have hlen2 : st2.nets.length = st.nets.length + 1 := by
          have := congrArg List.length hshape
          simpa using this
        have hids2 : ∀ (i : Nat) (n : CalcNet), st2.nets[i]? = some n →
            n.id = i ∧ n.value = 1 := by
          intro i n hn
          have hmap := congrArg (fun l => l[i]?) hshape
          simp only [List.getElem?_map] at hmap
          rw [hn] at hmap
          cases hsm : (st.nets ++ [(⟨st.nets.length, 1, []⟩ : CalcNet)])[i]? with
          | none => rw [hsm] at hmap; simp at hmap
          | some m =>
            rw [hsm] at hmap
            simp only [Option.map_some', Option.some.injEq, Prod.mk.injEq] at hmap
            obtain ⟨hid, hval⟩ := hmap
            obtain ⟨hid', hval'⟩ := hids1 i m hsm
            exact ⟨hid.trans hid', hval.trans hval'⟩
        have hframe : ∀ j, j ≠ st.nets.length →
            netPortsL st2.nets j =
              netPortsL (st.nets ++ [(⟨st.nets.length, 1, []⟩ : CalcNet)]) j :=
          fun j hj => traverse_frame ids (conns edges) st.nets.length
            _ _ _ _ _ htr j hj
        have hcompNew : ∀ z, z ∈ netPortsL st2.nets st.nets.length ↔
            Relation.ReflTransGen (adjE edges) (nid, portId) z :=
          traverse_component ids (conns edges) st.nets.length _ _ _ _
            htr hex1 hempty1
        have hseedIn : (nid, portId) ∈ netPortsL st2.nets st.nets.length :=
          (hcompNew _).2 Relation.ReflTransGen.refl
        have hsync2 : ∀ (p : Pair) (j : Nat),
            (p, j) ∈ st2.portNet ↔ p ∈ netPortsL st2.nets j := by
          refine traverse_sync ids (conns edges) st.nets.length
            _ _ _ _ _ htr hex1 ?_
          intro p j
          show (p, j) ∈ st.portNet ↔ _
          rcases lt_trichotomy j st.nets.length with hj | hj | hj
          · rw [hApp j hj]; exact inv.sync p j
          · subst hj
            rw [hempty1]
            simp only [List.not_mem_nil, iff_false]
            intro hc
            have := (inv.sync p st.nets.length).1 hc
            rw [inv.netPortsL_ge (le_refl _)] at this
            cases this
          · rw [hAppGe j hj]
            simp only [List.not_mem_nil, iff_false]
            intro hc
            have := (inv.sync p j).1 hc
            rw [inv.netPortsL_ge (by omega)] at this
            cases this
        have inv2 : BuildInv ids edges st2 := by
          refine ⟨hids2, ?_, hsync2, ?_, ?_⟩
          · -- component description per net
            intro j hj
            rw [hlen2] at hj
            rcases Nat.lt_succ_iff_lt_or_eq.1 hj with hjlt | hjeq
            · rcases inv.comp j hjlt with ⟨s, hs1, hs2, hs3⟩
              refine ⟨s, hs1, hs2, ?_⟩
              intro p
              rw [hframe j (by omega), hApp j hjlt]
              exact hs3 p
            · subst hjeq
              exact ⟨(nid, portId), hnid, portKeys_iff.1 hpk, hcompNew⟩
          · -- collected pairs name diagram nodes
            intro j p hp
            rcases lt_trichotomy j st.nets.length with hj | hj | hj
            · rw [hframe j (by omega), hApp j hj] at hp
              exact inv.listed j p hp
            · subst hj
              rcases traverse_listed ids (conns edges) st.nets.length
                  _ _ _ _ _ htr hex1 p hp with hin | hin
              · rw [hempty1] at hin; cases hin
              · exact hin
            · rw [hframe j (by omega), hAppGe j hj] at hp
              cases hp
          · -- distinct nets have disjoint ports
            intro j k p hpj hpk
            have key : ∀ m, m < st.nets.length →
                p ∈ netPortsL st2.nets m →
                p ∈ netPortsL st2.nets st.nets.length → False := by
              intro m hm hpm hpl
              rcases inv.comp m hm with ⟨s, _, _, hs3⟩
              have hpm' : p ∈ netPortsL st.nets m := by
                rw [hframe m (by omega), hApp m hm] at hpm
                exact hpm
              have hsp : Relation.ReflTransGen (adjE edges) s p := (hs3 p).1 hpm'
              have hseedp : Relation.ReflTransGen (adjE edges) (nid, portId) p :=
                (hcompNew p).1 hpl
              have hps : Relation.ReflTransGen (adjE edges) p (nid, portId) :=
                (Relation.ReflTransGen.symmetric (adjE_symmetric edges)) hseedp
              have hs_seed : Relation.ReflTransGen (adjE edges) s (nid, portId) :=
                hsp.trans hps
              have hseedm : (nid, portId) ∈ netPortsL st.nets m := (hs3 _).2 hs_seed
              have hentry : ((nid, portId), m) ∈ st.portNet :=
                (inv.sync _ m).2 hseedm
              exact hg (pnLookup_isSome_iff.2 ⟨m, hentry⟩)
            have hbound : ∀ m, p ∈ netPortsL st2.nets m → m < st.nets.length + 1 := by
              intro m hpm
              by_contra hc
              rw [hframe m (by omega), hAppGe m (by omega)] at hpm
              cases hpm
            have hjb := hbound j hpj
            have hkb := hbound k hpk
            rcases Nat.lt_succ_iff_lt_or_eq.1 hjb with hjlt | hjeq <;>
              rcases Nat.lt_succ_iff_lt_or_eq.1 hkb with hklt | hkeq
            · -- both old nets
              have hpj' : p ∈ netPortsL st.nets j := by
                rw [hframe j (by omega), hApp j hjlt] at hpj; exact hpj
              have hpk' : p ∈ netPortsL st.nets k := by
                rw [hframe k (by omega), hApp k hklt] at hpk; exact hpk
              exact inv.disj j k p hpj' hpk'
            · exact absurd (key j hjlt hpj (hkeq ▸ hpk)) not_false
            · exact absurd (key k hklt hpk (hjeq ▸ hpj)) not_false
            · rw [hjeq, hkeq]
        have mono1 : ∀ q ∈ st.portNet, q ∈ st2.portNet := by
          rcases traverse_portNet_extend ids (conns edges) st.nets.length
            _ _ _ _ _ htr with ⟨pre, hpre, -⟩
          intro q hq
          rw [hpre]
          exact List.mem_append.2 (Or.inr hq)
        obtain ⟨inv', mono2, cov'⟩ :=
          ih st2 st' (fun q hq => hsub q (by simp [hq])) h2 inv2
        refine ⟨inv', fun q hq => mono2 q (mono1 q hq), ?_⟩
        intro q hq
        rcases List.mem_cons.1 hq with heq | hq
        · have hentry : ((nid, portId), st.nets.length) ∈ st2.portNet :=
            (hsync2 _ _).2 hseedIn
          rw [heq]
          exact pnLookup_isSome_iff.2 ⟨st.nets.length, mono2 _ hentry⟩
        · exact cov' q hq

/-- Master lemma for the outer loop over the node list. -/
lemma buildPorts_master (ids : List String) (edges : List GraphEdge) :
    ∀ (nl : List GraphNode) (st st' : BuildState),
      (∀ node ∈ nl, node.id ∈ ids) →
      buildPorts ids edges nl st = .ok st' →
      BuildInv ids edges st →
      BuildInv ids edges st' ∧
        (∀ q ∈ st.portNet, q ∈ st'.portNet) ∧
        (∀ node ∈ nl, ∀ portId ∈ portKeys edges node.id,
          (pnLookup st'.portNet (node.id, portId)).isSome) := by
  intro nl
  induction nl with
  | nil =>
    intro st st' _ h inv
    simp only [buildPorts] at h
    cases h
    exact ⟨inv, fun q hq => hq, by simp⟩
  | cons node rest ih =>
    intro st st' hsub h inv
    simp only [buildPorts] at h
    cases hn : buildPortsNode ids edges node.id (portKeys edges node.id) st with
    | error e =>
      rw [hn] at h
      have h2 : (Except.error e : Except BuildErr BuildState) = .ok st' := h
      cases h2
    | ok st2 =>
      rw [hn] at h
      have h2 : buildPorts ids edges rest st2 = .ok st' := h
      obtain ⟨inv2, mono1, cov1⟩ := buildPortsNode_master ids edges node.id
        (hsub node (by simp)) (portKeys edges node.id) st st2
        (fun q hq => hq) hn inv
      obtain ⟨inv', mono2, cov2⟩ :=
        ih st2 st' (fun q hq => hsub q (by simp [hq])) h2 inv2
      refine ⟨inv', fun q hq => mono2 q (mono1 q hq), ?_⟩
      intro nd hnd portId hpid
      rcases List.mem_cons.1 hnd with heq | hnd
      · rw [heq]
        rcases pnLookup_isSome_iff.1
          (cov1 portId (by rw [← heq]; exact hpid)) with ⟨j, hj⟩
        exact pnLookup_isSome_iff.2 ⟨j, mono2 _ hj⟩
      · exact cov2 nd hnd portId hpid

/-- The invariant and port coverage hold for every successful build. -/
lemma buildCalculationGraph_master (nodes : List GraphNode)
    (edges : List GraphEdge) (res : List CalcNode × BuildState)
    (h : buildCalculationGraph nodes edges = .ok res) :
    BuildInv (nodes.map (·.id)) edges res.2 ∧
      (∀ node ∈ nodes, ∀ portId ∈ portKeys edges node.id,
        (pnLookup res.2.portNet (node.id, portId)).isSome) := by
  unfold buildCalculationGraph at h
  cases hb : buildPorts (nodes.map (·.id)) edges nodes ⟨[], []⟩ with
  | error e => rw [hb] at h; cases h
  | ok st =>
    rw [hb] at h
    have h2 : (Except.ok (calcNodesOf nodes, st) :
        Except BuildErr (List CalcNode × BuildState)) = .ok res := h
    cases h2
    obtain ⟨inv, -, cov⟩ := buildPorts_master (nodes.map (·.id)) edges nodes
      ⟨[], []⟩ st (fun node hnode => List.mem_map.2 ⟨node, hnode, rfl⟩) hb
      (BuildInv.start _ _)
    exact ⟨inv, cov⟩

/-- C2 amended: every net created by `buildCalculationGraph` has the
constant initial value `1` — port-declared seed values are never
collected or averaged. -/
theorem claim_C2_amended (nodes : List GraphNode) (edges : List GraphEdge)
    (res : List CalcNode × BuildState)
    (h : buildCalculationGraph nodes edges = .ok res) :
    ∀ net ∈ res.2.nets, net.value = 1 := by
  obtain ⟨inv, -⟩ := buildCalculationGraph_master nodes edges res h
  intro net hnet
  rcases List.getElem?_of_mem hnet with ⟨i, hi⟩
  exact (inv.idsVals i net hi).2

/-- Witness for the amended C2 on a concrete two-node diagram. -/
theorem claim_C2_witness :
    buildCalculationGraph [⟨"n1", .number 5 true⟩, ⟨"n2", .number 5 true⟩]
        [⟨"n1", "a", "n2", "a"⟩] =
      .ok ([⟨"n1", .number 5 true⟩, ⟨"n2", .number 5 true⟩],
        ⟨[(("n2", "a"), 0), (("n1", "a"), 0)],
         [⟨0, 1, [("n1", "a"), ("n2", "a")]⟩]⟩) ∧
    (⟨0, 1, [("n1", "a"), ("n2", "a")]⟩ : CalcNet) ∈
      ([⟨0, 1, [("n1", "a"), ("n2", "a")]⟩] : List CalcNet) ∧
    (⟨0, 1, [("n1", "a"), ("n2", "a")]⟩ : CalcNet).value = 1 :=
  ⟨by decide, by decide,
    claim_C2_amended [⟨"n1", .number 5 true⟩, ⟨"n2", .number 5 true⟩]
      [⟨"n1", "a", "n2", "a"⟩]
      ([⟨"n1", .number 5 true⟩, ⟨"n2", .number 5 true⟩],
        ⟨[(("n2", "a"), 0), (("n1", "a"), 0)],
         [⟨0, 1, [("n1", "a"), ("n2", "a")]⟩]⟩)
      (by decide) _ (by decide)⟩

/-- C10: in every successful build the net ids are exactly the positions
`0 .. nets.length - 1` in order, and every net referenced from a port map
entry is a member of the nets list (so indexing the unknown vector by
`net.id` is always in bounds). -/
theorem claim_C10_net_ids (nodes : List GraphNode) (edges : List GraphEdge)
    (res : List CalcNode × BuildState)
    (h : buildCalculationGraph nodes edges = .ok res) :
    (∀ (i : Nat) (n : CalcNet), res.2.nets[i]? = some n → n.id = i) ∧
    (∀ (p : Pair) (j : Nat), pnLookup res.2.portNet p = some j →
      j < res.2.nets.length ∧ ∃ net ∈ res.2.nets, net.id = j) := by
  obtain ⟨inv, -⟩ := buildCalculationGraph_master nodes edges res h
  constructor
  · exact fun i n hn => (inv.idsVals i n hn).1
  · intro p j hpj
    unfold pnLookup at hpj
    rcases Option.map_eq_some'.1 hpj with ⟨q, hq, hq2⟩
    have hq1 : q.1 = p := by simpa using List.find?_some hq
    have hqm : (p, j) ∈ res.2.portNet := by
      have : q = (p, j) := Prod.ext hq1 hq2
      rw [← this]
      exact List.mem_of_find?_eq_some hq
    have hp : p ∈ netPortsL res.2.nets j := (inv.sync p j).1 hqm
    have hne : netPortsL res.2.nets j ≠ [] := List.ne_nil_of_mem hp
    rw [netPortsL_of_ids res.2.nets (fun i n hn => (inv.idsVals i n hn).1)] at hne
    cases hj : res.2.nets[j]? with
    | none => rw [hj] at hne; simp at hne
    | some net =>
      have hmem : net ∈ res.2.nets := List.getElem?_mem hj
      have hlt : j < res.2.nets.length := by
        by_contra hc
        rw [List.getElem?_eq_none (by omega)] at hj
        cases hj
      exact ⟨hlt, net, hmem, (inv.idsVals j net hj).1⟩

/-- Witness for C10 on a concrete diagram. -/
theorem claim_C10_witness :
    buildCalculationGraph [⟨"n1", .number 5 true⟩, ⟨"n2", .number 5 true⟩]
        [⟨"n1", "a", "n2", "a"⟩] =
      .ok ([⟨"n1", .number 5 true⟩, ⟨"n2", .number 5 true⟩],
        ⟨[(("n2", "a"), 0), (("n1", "a"), 0)],
         [⟨0, 1, [("n1", "a"), ("n2", "a")]⟩]⟩) ∧
    ((∀ (i : Nat) (n : CalcNet),
        ([⟨0, 1, [("n1", "a"), ("n2", "a")]⟩] : List CalcNet)[i]? = some n →
        n.id = i) ∧
      (∀ (p : Pair) (j : Nat),
        pnLookup [(("n2", "a"), 0), (("n1", "a"), 0)] p = some j →
        j < ([⟨0, 1, [("n1", "a"), ("n2", "a")]⟩] : List CalcNet).length ∧
        ∃ net ∈ ([⟨0, 1, [("n1", "a"), ("n2", "a")]⟩] : List CalcNet),
          net.id = j)) :=
  ⟨by decide,
    claim_C10_net_ids [⟨"n1", .number 5 true⟩, ⟨"n2", .number 5 true⟩]
      [⟨"n1", "a", "n2", "a"⟩]
      ([⟨"n1", .number 5 true⟩, ⟨"n2", .number 5 true⟩],
        ⟨[(("n2", "a"), 0), (("n1", "a"), 0)],
         [⟨0, 1, [("n1", "a"), ("n2", "a")]⟩]⟩)
      (by decide)⟩

/-- C1: in every successful build, a `(node, port)` pair is assigned to at
most one `CalcNet`, and two port pairs of listed nodes share a `CalcNet`
exactly when a (non-empty, direction-ignoring) path of edges connects
them. -/
theorem claim_C1_nets_partition (nodes : List GraphNode)
    (edges : List GraphEdge) (res : List CalcNode × BuildState)
    (h : buildCalculationGraph nodes edges = .ok res) :
    (∀ n₁ ∈ res.2.nets, ∀ n₂ ∈ res.2.nets, ∀ p : Pair,
      p ∈ n₁.ports → p ∈ n₂.ports → n₁ = n₂) ∧
    (∀ x y : Pair, x.1 ∈ nodes.map (·.id) → y.1 ∈ nodes.map (·.id) →
      ((∃ net ∈ res.2.nets, x ∈ net.ports ∧ y ∈ net.ports) ↔
        Relation.TransGen (adjE edges) x y)) := by
  obtain ⟨inv, cov⟩ := buildCalculationGraph_master nodes edges res h
  have hids : ∀ (i : Nat) (n : CalcNet), res.2.nets[i]? = some n → n.id = i :=
    fun i n hn => (inv.idsVals i n hn).1
  have hports : ∀ net ∈ res.2.nets, ∃ i, res.2.nets[i]? = some net ∧
      netPortsL res.2.nets i = net.ports := by
    intro net hnet
    rcases List.getElem?_of_mem hnet with ⟨i, hi⟩
    refine ⟨i, hi, ?_⟩
    rw [netPortsL_of_ids res.2.nets hids, hi]
    rfl
  constructor
  · intro n₁ h₁ n₂ h₂ p hp₁ hp₂
    rcases hports n₁ h₁ with ⟨i₁, hi₁, hp₁'⟩
    rcases hports n₂ h₂ with ⟨i₂, hi₂, hp₂'⟩
    have heq : i₁ = i₂ := inv.disj i₁ i₂ p (by rw [hp₁']; exact hp₁)
      (by rw [hp₂']; exact hp₂)
    rw [heq, hi₂] at hi₁
    exact (Option.some.inj hi₁).symm
  · intro x y hx hy
    constructor
    · rintro ⟨net, hnet, hxn, hyn⟩
      rcases hports net hnet with ⟨j, hj, hpj⟩
      have hjlt : j < res.2.nets.length := by
        by_contra hc
        rw [List.getElem?_eq_none (by omega)] at hj
        cases hj
      rcases inv.comp j hjlt with ⟨s, -, hs2, hs3⟩
      have hsx : Relation.ReflTransGen (adjE edges) s x :=
        (hs3 x).1 (by rw [hpj]; exact hxn)
      have hsy : Relation.ReflTransGen (adjE edges) s y :=
        (hs3 y).1 (by rw [hpj]; exact hyn)
      have hxs : Relation.ReflTransGen (adjE edges) x s :=
        (Relation.ReflTransGen.symmetric (adjE_symmetric edges)) hsx
      rcases List.exists_mem_of_ne_nil _ hs2 with ⟨w, hw⟩
      have hss : Relation.TransGen (adjE edges) s s :=
        Relation.TransGen.tail (Relation.TransGen.single hw)
          (adjE_symmetric edges hw)
      exact Relation.TransGen.trans_left
        (Relation.TransGen.trans_right hxs hss) hsy
    · intro hxy
      rcases Relation.TransGen.head'_iff.1 hxy with ⟨w, hxw, -⟩
      have hcx : conns edges x ≠ [] := List.ne_nil_of_mem hxw
      rcases List.mem_map.1 hx with ⟨node, hnode, hnid⟩
      have hpk : x.2 ∈ portKeys edges node.id := by
        apply portKeys_iff.2
        rw [hnid]
        exact hcx
      have hsome := cov node hnode x.2 hpk
      rw [hnid] at hsome
      rcases pnLookup_isSome_iff.1 hsome with ⟨j, hj⟩
      have hxj : x ∈ netPortsL res.2.nets j := (inv.sync x j).1 hj
      have hne : netPortsL res.2.nets j ≠ [] := List.ne_nil_of_mem hxj
      rw [netPortsL_of_ids res.2.nets hids] at hne
      cases hjn : res.2.nets[j]? with
      | none => rw [hjn] at hne; simp at hne
      | some net =>
        have hjlt : j < res.2.nets.length := by
          by_contra hc
          rw [List.getElem?_eq_none (by omega)] at hjn
          cases hjn
        rcases inv.comp j hjlt with ⟨s, -, -, hs3⟩
        have hsx : Relation.ReflTransGen (adjE edges) s x := (hs3 x).1 hxj
        have hsy : Relation.ReflTransGen (adjE edges) s y :=
          hsx.trans (Relation.TransGen.to_reflTransGen hxy)
        have hyj : y ∈ netPortsL res.2.nets j := (hs3 y).2 hsy
        have hpn : netPortsL res.2.nets j = net.ports := by
          rw [netPortsL_of_ids res.2.nets hids, hjn]
          rfl
        refine ⟨net, List.getElem?_mem hjn, ?_, ?_⟩
        · rw [← hpn]; exact hxj
        · rw [← hpn]; exact hyj

/-- Witness for C1 on a concrete diagram: the two connected `a` ports
share a net, equivalently they are edge-connected. -/
theorem claim_C1_witness :
    buildCalculationGraph [⟨"n1", .number 5 true⟩, ⟨"n2", .number 5 true⟩]
        [⟨"n1", "a", "n2", "a"⟩] =
      .ok ([⟨"n1", .number 5 true⟩, ⟨"n2", .number 5 true⟩],
        ⟨[(("n2", "a"), 0), (("n1", "a"), 0)],
         [⟨0, 1, [("n1", "a"), ("n2", "a")]⟩]⟩) ∧
    ((∃ net ∈ ([⟨0, 1, [("n1", "a"), ("n2", "a")]⟩] : List CalcNet),
        (("n1", "a") : Pair) ∈ net.ports ∧ (("n2", "a") : Pair) ∈ net.ports) ↔
      Relation.TransGen (adjE [⟨"n1", "a", "n2", "a"⟩])
        ("n1", "a") ("n2", "a")) :=
  ⟨by decide,
    (claim_C1_nets_partition [⟨"n1", .number 5 true⟩, ⟨"n2", .number 5 true⟩]
      [⟨"n1", "a", "n2", "a"⟩]
      ([⟨"n1", .number 5 true⟩, ⟨"n2", .number 5 true⟩],
        ⟨[(("n2", "a"), 0), (("n1", "a"), 0)],
         [⟨0, 1, [("n1", "a"), ("n2", "a")]⟩]⟩)
      (by decide)).2 ("n1", "a") ("n2", "a") (by decide) (by decide)⟩

/-! ## Solver facts: solution size, and zero right-hand sides -/

lemma dot_zero_right : ∀ (u v : List ℚ), (∀ x ∈ v, x = 0) → dot u v = 0 := by
  intro u
  induction u with
  | nil => intro v _; simp [dot]
  | cons a u ih =>
    intro v hv
    cases v with
    | nil => simp [dot]
    | cons b v =>
      have hb : b = 0 := hv b (by simp)
      have hrest : ∀ x ∈ v, x = 0 := fun x hx => hv x (by simp [hx])
      have := ih v hrest
      simp only [dot, List.zipWith_cons_cons, List.sum_cons] at *
      rw [hb, this]
      ring

lemma pivotSplit_mem : ∀ (sys : List (List ℚ × ℚ)) (pr : List ℚ × ℚ)
    (others : List (List ℚ × ℚ)), pivotSplit sys = some (pr, others) →
    pr ∈ sys ∧ ∀ rb ∈ others, rb ∈ sys := by
  intro sys
  induction sys with
  | nil => intro pr others h; simp [pivotSplit] at h
  | cons rb rest ih =>
    intro pr others h
    unfold pivotSplit at h
    by_cases hz : rb.1.headD 0 ≠ 0
    · rw [if_pos hz] at h
      simp only [Option.some.injEq, Prod.mk.injEq] at h
      obtain ⟨h1, h2⟩ := h
      subst h1; subst h2
      exact ⟨by simp, fun q hq => by simp [hq]⟩
    · rw [if_neg hz] at h
      cases hps : pivotSplit rest with
      | none => rw [hps] at h; cases h
      | some pro =>
        rw [hps] at h
        simp only [Option.some.injEq, Prod.mk.injEq] at h
        obtain ⟨h1, h2⟩ := h
        obtain ⟨hmem, hsub⟩ := ih pro.1 pro.2 (by rw [hps])
        subst h1
        refine ⟨by simp [hmem], ?_⟩
        intro q hq
        rw [← h2] at hq
        rcases List.mem_cons.1 hq with heq | hq
        · simp [heq]
        · simp [hsub q hq]

lemma gaussSolve_length : ∀ (n : Nat) (sys : List (List ℚ × ℚ)) (xs : List ℚ),
    gaussSolve n sys = some xs → xs.length = n := by
  intro n
  induction n with
  | zero =>
    intro sys xs h
    simp only [gaussSolve, Option.some.injEq] at h
    rw [← h]
    rfl
  | succ n ih =>
    intro sys xs h
    unfold gaussSolve at h
    cases hps : pivotSplit sys with
    | none => rw [hps] at h; cases h
    | some pro =>
      rw [hps] at h
      cases hg : gaussSolve n (pro.2.map fun rb =>
          (List.zipWith (fun x y => x - rb.1.headD 0 / pro.1.1.headD 0 * y)
            rb.1.tail pro.1.1.tail,
           rb.2 - rb.1.headD 0 / pro.1.1.headD 0 * pro.1.2)) with
      | none =>
        rw [show pro = (pro.1, pro.2) from rfl] at h
        simp only at h
        rw [hg] at h
        cases h
      | some ys =>
        rw [show pro = (pro.1, pro.2) from rfl] at h
        simp only at h
        rw [hg] at h
        simp only [Option.some.injEq] at h
        rw [← h, List.length_cons, ih _ ys hg]

lemma gaussSolve_zero : ∀ (n : Nat) (sys : List (List ℚ × ℚ)),
    (∀ rb ∈ sys, rb.2 = 0) →
    gaussSolve n sys = none ∨
      ∃ xs, gaussSolve n sys = some xs ∧ ∀ v ∈ xs, v = 0 := by
  intro n
  induction n with
  | zero =>
    intro sys _
    exact Or.inr ⟨[], rfl, by simp⟩
  | succ n ih =>
    intro sys hz
    unfold gaussSolve
    cases hps : pivotSplit sys with
    | none => exact Or.inl rfl
    | some pro =>
      obtain ⟨hmem, hsub⟩ := pivotSplit_mem sys pro.1 pro.2 (by rw [hps])
      have hbr : pro.1.2 = 0 := hz pro.1 hmem
      have hred : ∀ rb ∈ (pro.2.map fun rb =>
          (List.zipWith (fun x y => x - rb.1.headD 0 / pro.1.1.headD 0 * y)
            rb.1.tail pro.1.1.tail,
           rb.2 - rb.1.headD 0 / pro.1.1.headD 0 * pro.1.2)), rb.2 = 0 := by
        intro rb hrb
        rcases List.mem_map.1 hrb with ⟨q, hq, hq2⟩
        rw [← hq2]
        have : q.2 = 0 := hz q (hsub q hq)
        simp [this, hbr]
      rcases ih _ hred with hnone | ⟨xs, hxs, hzxs⟩
      · rw [show pro = (pro.1, pro.2) from rfl]
        simp only
        rw [hnone]
        exact Or.inl rfl
      · rw [show pro = (pro.1, pro.2) from rfl]
        simp only
        rw [hxs]
        refine Or.inr ⟨_, rfl, ?_⟩
        intro v hv
        rcases List.mem_cons.1 hv with heq | hv
        · rw [heq, hbr, dot_zero_right _ _ hzxs]
          simp
        · exact hzxs v hv

lemma lsolve_zero (rows : List (List ℚ)) (rhs : List ℚ)
    (hz : ∀ v ∈ rhs, v = 0) :
    lsolve rows rhs = none ∨
      ∃ d, lsolve rows rhs = some d ∧ ∀ v ∈ d, v = 0 := by
  unfold lsolve
  by_cases h0 : rows.length = 0
  · rw [if_pos h0]; exact Or.inl rfl
  · rw [if_neg h0]
    by_cases hsq : rows.length = (rows.headD []).length
    · rw [if_pos hsq]
      apply gaussSolve_zero
      intro rb hrb
      exact hz rb.2 (List.of_mem_zip hrb).2
    · rw [if_neg hsq]
      apply gaussSolve_zero
      intro rb hrb
      rcases List.mem_map.1 hrb with ⟨ri, -, hq⟩
      rw [← hq]
      exact dot_zero_right ri rhs hz

lemma lsolve_length (rows : List (List ℚ)) (rhs : List ℚ) (d : List ℚ)
    (h : lsolve rows rhs = some d) : d.length = (rows.headD []).length := by
  unfold lsolve at h
  by_cases h0 : rows.length = 0
  · rw [if_pos h0] at h; cases h
  · rw [if_neg h0] at h
    by_cases hsq : rows.length = (rows.headD []).length
    · rw [if_pos hsq] at h
      exact gaussSolve_length _ _ _ h
    · rw [if_neg hsq] at h
      exact gaussSolve_length _ _ _ h

/-! ## Shapes of the assembled system and of the unknown vector -/

lemma foldl_rowAdd_length (g : Nat → ℚ) :
    ∀ (l : List Nat) (row : List ℚ),
      (l.foldl (fun r i => rowAdd r i (g i)) row).length = row.length := by
  intro l
  induction l with
  | nil => intro row; rfl
  | cons i rest ih =>
    intro row
    rw [List.foldl_cons, ih (rowAdd row i (g i)), rowAdd_length]

lemma assemble_rows_length (calcNodes : List CalcNode)
    (pn : List (Pair × Nat)) (nets : List CalcNet) :
    ∀ eq ∈ assembleEquations calcNodes pn nets, eq.1.length = nets.length := by
  intro eq heq
  rcases List.mem_flatMap.1 heq with ⟨cn, -, heq⟩
  rcases cn with ⟨nid, spec⟩
  cases spec with
  | number v locked =>
    simp only [calculateNode, numberEquations] at heq
    by_cases hl : locked
    · rw [if_pos hl] at heq
      rcases List.mem_append.1 heq with hm | hm
      · cases ha : pnLookup pn (nid, "a") <;>
          (rw [ha] at hm; simp at hm; try simp [hm, zeroRow])
      · cases hb : pnLookup pn (nid, "b") <;>
          (rw [hb] at hm; simp at hm; try simp [hm, zeroRow])
    · rw [if_neg hl] at heq
      cases ha : pnLookup pn (nid, "a") <;>
        (rw [ha] at heq; cases hb : pnLookup pn (nid, "b") <;>
          (rw [hb] at heq; simp at heq; try simp [heq, zeroRow]))
  | plus top bottom =>
    simp only [calculateNode, plusEquations, List.mem_singleton] at heq
    simp only [heq]
    rw [plus_foldl_length, plus_foldl_length]
    simp [zeroRow]
  | mul top bottom =>
    simp only [calculateNode, mulEquations] at heq
    by_cases hc : (top.filterMap fun pid => pnLookup pn (nid, pid)) ≠ [] ∧
        (bottom.filterMap fun pid => pnLookup pn (nid, pid)) ≠ []
    · rw [if_pos hc] at heq
      have heq2 := List.mem_singleton.1 heq
      simp only [heq2]
      rw [foldl_rowAdd_length, foldl_rowAdd_length]
      simp [zeroRow]
    · rw [if_neg hc] at heq
      cases heq
  | graphReference => cases heq

lemma foldl_setval_length : ∀ (nets : List CalcNet) (s : List ℚ),
    (nets.foldl (fun s net => s.set net.id net.value) s).length = s.length := by
  intro nets
  induction nets with
  | nil => intro s; rfl
  | cons m rest ih =>
    intro s
    rw [List.foldl_cons, ih, List.length_set]

lemma xInit_length (nets : List CalcNet) : (xInit nets).length = nets.length := by
  rw [xInit, foldl_setval_length, List.length_replicate]

lemma take_set (s : List ℚ) (k : Nat) (a : ℚ) (hk : k < s.length) :
    (s.set k a).take (k + 1) = s.take k ++ [a] := by
  rw [List.set_eq_take_cons_drop a hk]
  have hlen : (s.take k).length = k := by
    rw [List.length_take]
    omega
  rw [List.take_append_eq_append_take, hlen,
    List.take_of_length_le (by rw [hlen]; omega)]
  have h2 : k + 1 - k = 1 := by omega
  rw [h2]
  simp

lemma drop_set_of_lt (s : List ℚ) (k m : Nat) (a : ℚ) (hk : k < m) :
    (s.set k a).drop m = s.drop m := by
  rcases lt_or_le k s.length with hks | hks
  · rw [List.set_eq_take_cons_drop a hks]
    have hlen : (s.take k).length = k := by
      rw [List.length_take]; omega
    rw [List.drop_append_eq_append_drop,
      List.drop_eq_nil_of_le (by omega), hlen]
    cases hm : m - k with
    | zero => omega
    | succ m2 =>
      simp only [List.nil_append, List.drop_succ_cons, List.drop_drop]
      congr 1
      omega
  · rw [List.set_eq_of_length_le hks]

/-- Writing each net's value into its own slot (ids equal to positions)
turns the scratch vector into the list of values. -/
lemma foldl_set_suffix : ∀ (l : List CalcNet) (k : Nat) (s : List ℚ),
    (∀ (i : Nat) (n : CalcNet), l[i]? = some n → n.id = k + i) →
    k + l.length ≤ s.length →
    l.foldl (fun s net => s.set net.id net.value) s =
      s.take k ++ l.map (·.value) ++ s.drop (k + l.length) := by
  intro l
  induction l with
  | nil =>
    intro k s _ _
    simp [List.take_append_drop]
  | cons m rest ih =>
    intro k s hids hlen
    have hm : m.id = k := by simpa using hids 0 m (by simp)
    have hrest : ∀ (i : Nat) (n : CalcNet), rest[i]? = some n →
        n.id = (k + 1) + i := by
      intro i n hn
      have : (m :: rest)[i + 1]? = some n := by simpa using hn
      have := hids (i + 1) n this
      omega
    have hk : k < s.length := by
      simp only [List.length_cons] at hlen
      omega
    rw [List.foldl_cons, hm]
    rw [ih (k + 1) (s.set k m.value) hrest
      (by rw [List.length_set]; simp only [List.length_cons] at hlen; omega)]
    rw [take_set s k m.value hk, drop_set_of_lt s k _ m.value (by omega)]
    simp only [List.map_cons, List.length_cons]
    have harith : k + 1 + rest.length = k + (rest.length + 1) := by omega
    rw [harith]
    simp [List.append_assoc]

lemma xInit_eq_values (nets : List CalcNet)
    (hwf : ∀ (i : Nat) (n : CalcNet), nets[i]? = some n → n.id = i) :
    xInit nets = nets.map (·.value) := by
  rw [xInit, foldl_set_suffix nets 0 (List.replicate nets.length 0)
    (by simpa using hwf) (by simp)]
  simp

lemma applyX_values (nets : List CalcNet)
    (hwf : ∀ (i : Nat) (n : CalcNet), nets[i]? = some n → n.id = i) :
    applyX nets (nets.map (·.value)) = nets := by
  apply List.ext_getElem?
  intro i
  rw [applyX, List.getElem?_map]
  cases hi : nets[i]? with
  | none => rfl
  | some n =>
    have hid : n.id = i := hwf i n hi
    have hlt : i < nets.length := by
      by_contra hc
      rw [List.getElem?_eq_none (by omega)] at hi
      cases hi
    have hvm : (nets.map (·.value)).getD n.id 0 = n.value := by
      rw [hid, List.getD_eq_getElem?_getD, List.getElem?_map, hi]
      rfl
    simp only [Option.map_some', hvm]

lemma vecStep_zero : ∀ (x d : List ℚ) (alpha : ℚ), (∀ v ∈ d, v = 0) →
    d.length = x.length → vecStep x d alpha = x := by
  intro x
  induction x with
  | nil => intro d alpha _ _; simp [vecStep]
  | cons a x ih =>
    intro d alpha hz hlen
    cases d with
    | nil => simp at hlen
    | cons b d =>
      have hb : b = 0 := hz b (by simp)
      have hrest : ∀ v ∈ d, v = 0 := fun v hv => hz v (by simp [hv])
      simp only [vecStep, List.zipWith_cons_cons]
      rw [hb]
      have := ih d alpha hrest (by simpa using hlen)
      rw [show List.zipWith (fun a b => a + alpha * b) x d = vecStep x d alpha
        from rfl, this]
      simp

lemma normSq_zero (d : List ℚ) (hz : ∀ v ∈ d, v = 0) : normSq d = 0 := by
  induction d with
  | nil => rfl
  | cons a d ih =>
    have ha : a = 0 := hz a (by simp)
    have := ih (fun v hv => hz v (by simp [hv]))
    simp only [normSq, List.map_cons, List.sum_cons] at *
    rw [ha, this]
    ring

/-! ## Idempotence at a converged state (claim C9) -/

lemma calcLoop_succ_none (calcNodes : List CalcNode) (pn : List (Pair × Nat))
    (solver : List (List ℚ) → List ℚ → Option (List ℚ))
    (fuel : Nat) (nets : List CalcNet) (x : List ℚ) (lastE2 : Option ℚ)
    (alpha : ℚ) (n its : Nat)
    (hd : solver ((assembleEquations calcNodes pn nets).map Prod.fst)
      ((assembleEquations calcNodes pn nets).map fun e => -e.2) = none) :
    calcLoop calcNodes pn solver (fuel + 1) nets x lastE2 alpha n its =
      ⟨nets, x, its + 1, alpha, .solveError⟩ := by
  simp only [calcLoop, hd]

lemma calcLoop_succ_some (calcNodes : List CalcNode) (pn : List (Pair × Nat))
    (solver : List (List ℚ) → List ℚ → Option (List ℚ))
    (fuel : Nat) (nets : List CalcNet) (x : List ℚ) (lastE2 : Option ℚ)
    (alpha : ℚ) (n its : Nat) (d : List ℚ)
    (hd : solver ((assembleEquations calcNodes pn nets).map Prod.fst)
      ((assembleEquations calcNodes pn nets).map fun e => -e.2) = some d) :
    calcLoop calcNodes pn solver (fuel + 1) nets x lastE2 alpha n its =
      (if normSq d < (1 / 10 ^ 16 : ℚ) then
        ⟨applyX nets (vecStep x d alpha), vecStep x d alpha, its + 1,
          (match lastE2 with
            | some l => if normSq ((assembleEquations calcNodes pn nets).map
                  fun e => -e.2) > (9801 / 10000 : ℚ) * l then
                alpha * (9 / 10) else alpha
            | none => alpha), .stepSmall⟩
      else if (match lastE2 with
            | some l => if normSq ((assembleEquations calcNodes pn nets).map
                  fun e => -e.2) > (9801 / 10000 : ℚ) * l then
                alpha * (9 / 10) else alpha
            | none => alpha) < (1 / 10 : ℚ) ∨ n > 100 then
        ⟨applyX nets (vecStep x d alpha), vecStep x d alpha, its + 1,
          (match lastE2 with
            | some l => if normSq ((assembleEquations calcNodes pn nets).map
                  fun e => -e.2) > (9801 / 10000 : ℚ) * l then
                alpha * (9 / 10) else alpha
            | none => alpha), .aborted⟩
      else calcLoop calcNodes pn solver fuel (applyX nets (vecStep x d alpha))
        (vecStep x d alpha)
        (some (normSq ((assembleEquations calcNodes pn nets).map fun e => -e.2)))
        (match lastE2 with
          | some l => if normSq ((assembleEquations calcNodes pn nets).map
                fun e => -e.2) > (9801 / 10000 : ℚ) * l then
              alpha * (9 / 10) else alpha
          | none => alpha) (n + 1) (its + 1)) := by
  simp only [calcLoop, hd]

/-- C9: from a state whose current net values already satisfy every
contributed equation (all residuals zero), `calculate` stops after exactly
one loop body, never shrinks the damping factor, and leaves the nets —
values included — unchanged: the first computed step is the zero vector,
whose norm is below the 1e-8 tolerance (or, if the Jacobian is singular,
the solve throws on the first iteration, which also leaves the nets
untouched). -/
theorem claim_C9_idempotent (calcNodes : List CalcNode)
    (pn : List (Pair × Nat)) (nets : List CalcNet)
    (hwf : ∀ (i : Nat) (n : CalcNet), nets[i]? = some n → n.id = i)
    (hzero : ∀ eq ∈ assembleEquations calcNodes pn nets, eq.2 = 0) :
    (calculate calcNodes pn nets lsolve).iterations = 1 ∧
    (calculate calcNodes pn nets lsolve).alpha = 1 ∧
    (calculate calcNodes pn nets lsolve).nets = nets ∧
    ((calculate calcNodes pn nets lsolve).exit = ExitKind.stepSmall ∨
     (calculate calcNodes pn nets lsolve).exit = ExitKind.solveError) := by
  have hb : ∀ v ∈ (assembleEquations calcNodes pn nets).map (fun e => -e.2),
      v = 0 := by
    intro v hv
    rcases List.mem_map.1 hv with ⟨eq, heq, hveq⟩
    rw [← hveq, hzero eq heq, neg_zero]
  rw [calculate, show (103 : Nat) = 102 + 1 from rfl]
  rcases lsolve_zero ((assembleEquations calcNodes pn nets).map Prod.fst)
      ((assembleEquations calcNodes pn nets).map fun e => -e.2) hb with
    hnone | ⟨d, hd, hdz⟩
  · rw [calcLoop_succ_none calcNodes pn lsolve 102 nets (xInit nets) none 1 0 0
      hnone]
    exact ⟨rfl, rfl, rfl, Or.inr rfl⟩
  · rw [calcLoop_succ_some calcNodes pn lsolve 102 nets (xInit nets) none 1 0 0
      d hd]
    have hne : assembleEquations calcNodes pn nets ≠ [] := by
      intro hnil
      rw [hnil] at hd
      simp [lsolve] at hd
    have hdlen : d.length = nets.length := by
      rw [lsolve_length _ _ _ hd]
      cases heqs : assembleEquations calcNodes pn nets with
      | nil => exact absurd heqs hne
      | cons e rest =>
        have he : e ∈ assembleEquations calcNodes pn nets := by
          rw [heqs]; simp
        have := assemble_rows_length calcNodes pn nets e he
        simpa using this
    have hx : vecStep (xInit nets) d 1 = xInit nets :=
      vecStep_zero (xInit nets) d 1 hdz (by rw [hdlen, xInit_length])
    have happ : applyX nets (xInit nets) = nets := by
      rw [xInit_eq_values nets hwf]
      exact applyX_values nets hwf
    have hsmall : normSq d < (1 / 10 ^ 16 : ℚ) := by
      rw [normSq_zero d hdz]
      norm_num
    rw [if_pos hsmall]
    refine ⟨rfl, rfl, ?_, Or.inl rfl⟩
    show applyX nets (vecStep (xInit nets) d 1) = nets
    rw [hx, happ]

/-- Witness for C9: a built two-source diagram already at its solution
(both locked at the nets' initial value 1). -/
theorem claim_C9_witness :
    (∀ (i : Nat) (n : CalcNet),
      ([⟨0, 1, [("n1", "a"), ("n2", "a")]⟩] : List CalcNet)[i]? = some n →
        n.id = i) ∧
    (∀ eq ∈ assembleEquations [⟨"n1", .number 1 true⟩, ⟨"n2", .number 1 true⟩]
        [(("n2", "a"), 0), (("n1", "a"), 0)]
        [⟨0, 1, [("n1", "a"), ("n2", "a")]⟩], eq.2 = 0) ∧
    ((calculate [⟨"n1", .number 1 true⟩, ⟨"n2", .number 1 true⟩]
        [(("n2", "a"), 0), (("n1", "a"), 0)]
        [⟨0, 1, [("n1", "a"), ("n2", "a")]⟩] lsolve).iterations = 1 ∧
      (calculate [⟨"n1", .number 1 true⟩, ⟨"n2", .number 1 true⟩]
        [(("n2", "a"), 0), (("n1", "a"), 0)]
        [⟨0, 1, [("n1", "a"), ("n2", "a")]⟩] lsolve).alpha = 1 ∧
      (calculate [⟨"n1", .number 1 true⟩, ⟨"n2", .number 1 true⟩]
        [(("n2", "a"), 0), (("n1", "a"), 0)]
        [⟨0, 1, [("n1", "a"), ("n2", "a")]⟩] lsolve).nets =
          [⟨0, 1, [("n1", "a"), ("n2", "a")]⟩] ∧
      ((calculate [⟨"n1", .number 1 true⟩, ⟨"n2", .number 1 true⟩]
        [(("n2", "a"), 0), (("n1", "a"), 0)]
        [⟨0, 1, [("n1", "a"), ("n2", "a")]⟩] lsolve).exit = ExitKind.stepSmall ∨
       (calculate [⟨"n1", .number 1 true⟩, ⟨"n2", .number 1 true⟩]
        [(("n2", "a"), 0), (("n1", "a"), 0)]
        [⟨0, 1, [("n1", "a"), ("n2", "a")]⟩] lsolve).exit =
          ExitKind.solveError)) := by
  have hwf : ∀ (i : Nat) (n : CalcNet),
      ([⟨0, 1, [("n1", "a"), ("n2", "a")]⟩] : List CalcNet)[i]? = some n →
        n.id = i := by
    intro i n h
    cases i with
    | zero =>
      simp only [List.getElem?_cons_zero, Option.some.injEq] at h
      rw [← h]
    | succ m => simp at h
  have hzero : ∀ eq ∈ assembleEquations
      [⟨"n1", .number 1 true⟩, ⟨"n2", .number 1 true⟩]
      [(("n2", "a"), 0), (("n1", "a"), 0)]
      [⟨0, 1, [("n1", "a"), ("n2", "a")]⟩], eq.2 = 0 := by
    have hassemble : assembleEquations
        [⟨"n1", .number 1 true⟩, ⟨"n2", .number 1 true⟩]
        [(("n2", "a"), 0), (("n1", "a"), 0)]
        [⟨0, 1, [("n1", "a"), ("n2", "a")]⟩] = [([1], 0), ([1], 0)] := by
      simp [assembleEquations, calculateNode, numberEquations, netValue,
        pnLookup, zeroRow, List.find?]
    rw [hassemble]
    intro eq heq
    rcases List.mem_cons.1 heq with heq | heq
    · rw [heq]
    · rcases List.mem_singleton.1 heq with rfl
      rfl
  exact ⟨hwf, hzero, claim_C9_idempotent _ _ _ hwf hzero⟩

/-! ## Failure handling of `calculate` (claim C8) -/

lemma calcLoop_succ_some_first (calcNodes : List CalcNode)
    (pn : List (Pair × Nat))
    (solver : List (List ℚ) → List ℚ → Option (List ℚ))
    (fuel : Nat) (nets : List CalcNet) (x : List ℚ) (alpha : ℚ) (n its : Nat)
    (d : List ℚ)
    (hd : solver ((assembleEquations calcNodes pn nets).map Prod.fst)
      ((assembleEquations calcNodes pn nets).map fun e => -e.2) = some d) :
    calcLoop calcNodes pn solver (fuel + 1) nets x none alpha n its =
      (if normSq d < (1 / 10 ^ 16 : ℚ) then
        ⟨applyX nets (vecStep x d alpha), vecStep x d alpha, its + 1, alpha,
          .stepSmall⟩
      else if alpha < (1 / 10 : ℚ) ∨ n > 100 then
        ⟨applyX nets (vecStep x d alpha), vecStep x d alpha, its + 1, alpha,
          .aborted⟩
      else calcLoop calcNodes pn solver fuel (applyX nets (vecStep x d alpha))
        (vecStep x d alpha)
        (some (normSq ((assembleEquations calcNodes pn nets).map fun e => -e.2)))
        alpha (n + 1) (its + 1)) := by
  simp only [calcLoop, hd]

lemma calcLoop_succ_some_later (calcNodes : List CalcNode)
    (pn : List (Pair × Nat))
    (solver : List (List ℚ) → List ℚ → Option (List ℚ))
    (fuel : Nat) (nets : List CalcNet) (x : List ℚ) (l : ℚ) (alpha : ℚ)
    (n its : Nat) (d : List ℚ)
    (hd : solver ((assembleEquations calcNodes pn nets).map Prod.fst)
      ((assembleEquations calcNodes pn nets).map fun e => -e.2) = some d) :
    calcLoop calcNodes pn solver (fuel + 1) nets x (some l) alpha n its =
      (if normSq d < (1 / 10 ^ 16 : ℚ) then
        ⟨applyX nets (vecStep x d alpha), vecStep x d alpha, its + 1,
          (if normSq ((assembleEquations calcNodes pn nets).map fun e => -e.2) >
              (9801 / 10000 : ℚ) * l then alpha * (9 / 10) else alpha),
          .stepSmall⟩
      else if (if normSq ((assembleEquations calcNodes pn nets).map
              fun e => -e.2) > (9801 / 10000 : ℚ) * l then
            alpha * (9 / 10) else alpha) < (1 / 10 : ℚ) ∨ n > 100 then
        ⟨applyX nets (vecStep x d alpha), vecStep x d alpha, its + 1,
          (if normSq ((assembleEquations calcNodes pn nets).map fun e => -e.2) >
              (9801 / 10000 : ℚ) * l then alpha * (9 / 10) else alpha),
          .aborted⟩
      else calcLoop calcNodes pn solver fuel (applyX nets (vecStep x d alpha))
        (vecStep x d alpha)
        (some (normSq ((assembleEquations calcNodes pn nets).map fun e => -e.2)))
        (if normSq ((assembleEquations calcNodes pn nets).map fun e => -e.2) >
            (9801 / 10000 : ℚ) * l then alpha * (9 / 10) else alpha)
        (n + 1) (its + 1)) := by
  simp only [calcLoop, hd]

/-- C8 counterexample: a diagram whose assembled system has 2 equations
but only 1 net (a locked source pinning one net through both of its
terminals).  `calculate` does not report any failure: the non-square
system is solved in the least-squares sense, the loop converges
(`stepSmall`), and the net's value is overwritten from its initial 1 to 2. -/
theorem claim_C8_counterexample :
    buildCalculationGraph [⟨"n1", .number 2 true⟩, ⟨"n2", .number 2 true⟩]
        [⟨"n1", "a", "n2", "a"⟩] =
      .ok ([⟨"n1", .number 2 true⟩, ⟨"n2", .number 2 true⟩],
        ⟨[(("n2", "a"), 0), (("n1", "a"), 0)],
         [⟨0, 1, [("n1", "a"), ("n2", "a")]⟩]⟩) ∧
    (assembleEquations [⟨"n1", .number 2 true⟩, ⟨"n2", .number 2 true⟩]
      [(("n2", "a"), 0), (("n1", "a"), 0)]
      [⟨0, 1, [("n1", "a"), ("n2", "a")]⟩]).length = 2 ∧
    ([⟨0, 1, [("n1", "a"), ("n2", "a")]⟩] : List CalcNet).length = 1 ∧
    (2 : Nat) ≠ 1 ∧
    (calculate [⟨"n1", .number 2 true⟩, ⟨"n2", .number 2 true⟩]
      [(("n2", "a"), 0), (("n1", "a"), 0)]
      [⟨0, 1, [("n1", "a"), ("n2", "a")]⟩] lsolve).exit = ExitKind.stepSmall ∧
    (calculate [⟨"n1", .number 2 true⟩, ⟨"n2", .number 2 true⟩]
      [(("n2", "a"), 0), (("n1", "a"), 0)]
      [⟨0, 1, [("n1", "a"), ("n2", "a")]⟩] lsolve).nets.map (·.value) = [2] ∧
    ([⟨0, 1, [("n1", "a"), ("n2", "a")]⟩] : List CalcNet).map (·.value) = [1] ∧
    ((2 : ℚ) ≠ 1) := by
  have hassemble1 : assembleEquations
      [⟨"n1", .number 2 true⟩, ⟨"n2", .number 2 true⟩]
      [(("n2", "a"), 0), (("n1", "a"), 0)]
      [⟨0, 1, [("n1", "a"), ("n2", "a")]⟩] = [([1], -1), ([1], -1)] := by
    simp [assembleEquations, calculateNode, numberEquations, netValue,
      pnLookup, zeroRow, List.find?]
    try norm_num
  have hd1 : lsolve ((assembleEquations
      [⟨"n1", .number 2 true⟩, ⟨"n2", .number 2 true⟩]
      [(("n2", "a"), 0), (("n1", "a"), 0)]
      [⟨0, 1, [("n1", "a"), ("n2", "a")]⟩]).map Prod.fst)
      ((assembleEquations
      [⟨"n1", .number 2 true⟩, ⟨"n2", .number 2 true⟩]
      [(("n2", "a"), 0), (("n1", "a"), 0)]
      [⟨0, 1, [("n1", "a"), ("n2", "a")]⟩]).map fun e => -e.2) = some [1] := by
    rw [hassemble1]
    norm_num [lsolve, gaussSolve, pivotSplit, transposeQ, dot, List.range_succ]
  have happly1 : applyX [⟨0, 1, [("n1", "a"), ("n2", "a")]⟩]
      (vecStep (xInit [⟨0, 1, [("n1", "a"), ("n2", "a")]⟩]) [1] 1) =
      [⟨0, 2, [("n1", "a"), ("n2", "a")]⟩] := by
    norm_num [applyX, vecStep, xInit]
  have hassemble2 : assembleEquations
      [⟨"n1", .number 2 true⟩, ⟨"n2", .number 2 true⟩]
      [(("n2", "a"), 0), (("n1", "a"), 0)]
      [⟨0, 2, [("n1", "a"), ("n2", "a")]⟩] = [([1], 0), ([1], 0)] := by
    simp [assembleEquations, calculateNode, numberEquations, netValue,
      pnLookup, zeroRow, List.find?]
    try norm_num
  have hd2 : lsolve ((assembleEquations
      [⟨"n1", .number 2 true⟩, ⟨"n2", .number 2 true⟩]
      [(("n2", "a"), 0), (("n1", "a"), 0)]
      [⟨0, 2, [("n1", "a"), ("n2", "a")]⟩]).map Prod.fst)
      ((assembleEquations
      [⟨"n1", .number 2 true⟩, ⟨"n2", .number 2 true⟩]
      [(("n2", "a"), 0), (("n1", "a"), 0)]
      [⟨0, 2, [("n1", "a"), ("n2", "a")]⟩]).map fun e => -e.2) = some [0] := by
    rw [hassemble2]
    norm_num [lsolve, gaussSolve, pivotSplit, transposeQ, dot, List.range_succ]
  have hrun : (calculate [⟨"n1", .number 2 true⟩, ⟨"n2", .number 2 true⟩]
      [(("n2", "a"), 0), (("n1", "a"), 0)]
      [⟨0, 1, [("n1", "a"), ("n2", "a")]⟩] lsolve) =
      ⟨[⟨0, 2, [("n1", "a"), ("n2", "a")]⟩],
        vecStep (vecStep (xInit [⟨0, 1, [("n1", "a"), ("n2", "a")]⟩]) [1] 1)
          [0] 1, 2,
        (if normSq ((assembleEquations
            [⟨"n1", .number 2 true⟩, ⟨"n2", .number 2 true⟩]
            [(("n2", "a"), 0), (("n1", "a"), 0)]
            [⟨0, 2, [("n1", "a"), ("n2", "a")]⟩]).map fun e => -e.2) >
            (9801 / 10000 : ℚ) *
              normSq ((assembleEquations
                [⟨"n1", .number 2 true⟩, ⟨"n2", .number 2 true⟩]
                [(("n2", "a"), 0), (("n1", "a"), 0)]
                [⟨0, 1, [("n1", "a"), ("n2", "a")]⟩]).map fun e => -e.2)
          then (1 : ℚ) * (9 / 10) else 1),
        ExitKind.stepSmall⟩ := by
    rw [calculate, show (103 : Nat) = 102 + 1 from rfl,
      calcLoop_succ_some_first _ _ lsolve 102 _ _ 1 0 0 [1] hd1]
    rw [if_neg (by norm_num [normSq]), if_neg (by norm_num)]
    rw [happly1, show (102 : Nat) = 101 + 1 from rfl,
      calcLoop_succ_some_later _ _ lsolve 101 _ _ _ 1 1 1 [0] hd2]
    rw [if_pos (by norm_num [normSq])]
    congr 1
    norm_num [applyX, vecStep, xInit]
  refine ⟨by decide, by rw [hassemble1]; rfl, by decide, by decide, ?_, ?_,
    by norm_num, by norm_num⟩
  · rw [hrun]
  · rw [hrun]
    norm_num

/-- A linear-solver behaviour that succeeds on the first system of the
C8 diagram and throws afterwards (modelling `solve` raising on a later
iteration). -/
def failSecond (_rows : List (List ℚ)) (rhs : List ℚ) : Option (List ℚ) :=
  if rhs = [1, 1] then some [1] else none

/-- C8 amended: `calculate` never checks the equation count against the
net count (a mismatched system is simply solved least-squares and its
values applied — see the counterexample).  A solver exception is
distinguishable (`solveError`), and when it happens on the *first*
iteration the net values are untouched; but an exception on a later
iteration leaves the values written by the earlier iterations applied, as
the concrete `failSecond` run shows (the net keeps the value 2 written in
iteration one instead of its initial 1). -/
theorem claim_C8_amended :
    (∀ (calcNodes : List CalcNode) (pn : List (Pair × Nat))
      (nets : List CalcNet)
      (solver : List (List ℚ) → List ℚ → Option (List ℚ)),
      solver ((assembleEquations calcNodes pn nets).map Prod.fst)
        ((assembleEquations calcNodes pn nets).map fun e => -e.2) = none →
      calculate calcNodes pn nets solver =
        ⟨nets, xInit nets, 1, 1, ExitKind.solveError⟩) ∧
    ((calculate [⟨"n1", .number 2 true⟩, ⟨"n2", .number 2 true⟩]
        [(("n2", "a"), 0), (("n1", "a"), 0)]
        [⟨0, 1, [("n1", "a"), ("n2", "a")]⟩] failSecond).exit =
          ExitKind.solveError ∧
      (calculate [⟨"n1", .number 2 true⟩, ⟨"n2", .number 2 true⟩]
        [(("n2", "a"), 0), (("n1", "a"), 0)]
        [⟨0, 1, [("n1", "a"), ("n2", "a")]⟩] failSecond).iterations = 2 ∧
      (calculate [⟨"n1", .number 2 true⟩, ⟨"n2", .number 2 true⟩]
        [(("n2", "a"), 0), (("n1", "a"), 0)]
        [⟨0, 1, [("n1", "a"), ("n2", "a")]⟩] failSecond).nets.map (·.value) =
          [2] ∧
      ([⟨0, 1, [("n1", "a"), ("n2", "a")]⟩] : List CalcNet).map (·.value) =
          [1] ∧ ((2 : ℚ) ≠ 1)) := by
  constructor
  · intro calcNodes pn nets solver h
    rw [calculate, show (103 : Nat) = 102 + 1 from rfl,
      calcLoop_succ_none calcNodes pn solver 102 nets (xInit nets) none 1 0 0 h]
  · have hassemble1 : assembleEquations
        [⟨"n1", .number 2 true⟩, ⟨"n2", .number 2 true⟩]
        [(("n2", "a"), 0), (("n1", "a"), 0)]
        [⟨0, 1, [("n1", "a"), ("n2", "a")]⟩] = [([1], -1), ([1], -1)] := by
      simp [assembleEquations, calculateNode, numberEquations, netValue,
        pnLookup, zeroRow, List.find?]
      try norm_num
    have hassemble2 : assembleEquations
        [⟨"n1", .number 2 true⟩, ⟨"n2", .number 2 true⟩]
        [(("n2", "a"), 0), (("n1", "a"), 0)]
        [⟨0, 2, [("n1", "a"), ("n2", "a")]⟩] = [([1], 0), ([1], 0)] := by
      simp [assembleEquations, calculateNode, numberEquations, netValue,
        pnLookup, zeroRow, List.find?]
      try norm_num
    have hd1f : failSecond ((assembleEquations
        [⟨"n1", .number 2 true⟩, ⟨"n2", .number 2 true⟩]
        [(("n2", "a"), 0), (("n1", "a"), 0)]
        [⟨0, 1, [("n1", "a"), ("n2", "a")]⟩]).map Prod.fst)
        ((assembleEquations
        [⟨"n1", .number 2 true⟩, ⟨"n2", .number 2 true⟩]
        [(("n2", "a"), 0), (("n1", "a"), 0)]
        [⟨0, 1, [("n1", "a"), ("n2", "a")]⟩]).map fun e => -e.2) = some [1] := by
      rw [hassemble1]
      norm_num [failSecond]
    have hd2f : failSecond ((assembleEquations
        [⟨"n1", .number 2 true⟩, ⟨"n2", .number 2 true⟩]
        [(("n2", "a"), 0), (("n1", "a"), 0)]
        [⟨0, 2, [("n1", "a"), ("n2", "a")]⟩]).map Prod.fst)
        ((assembleEquations
        [⟨"n1", .number 2 true⟩, ⟨"n2", .number 2 true⟩]
        [(("n2", "a"), 0), (("n1", "a"), 0)]
        [⟨0, 2, [("n1", "a"), ("n2", "a")]⟩]).map fun e => -e.2) = none := by
      rw [hassemble2]
      norm_num [failSecond]
    have happly1 : applyX [⟨0, 1, [("n1", "a"), ("n2", "a")]⟩]
        (vecStep (xInit [⟨0, 1, [("n1", "a"), ("n2", "a")]⟩]) [1] 1) =
        [⟨0, 2, [("n1", "a"), ("n2", "a")]⟩] := by
      norm_num [applyX, vecStep, xInit]
    have hrun : (calculate [⟨"n1", .number 2 true⟩, ⟨"n2", .number 2 true⟩]
        [(("n2", "a"), 0), (("n1", "a"), 0)]
        [⟨0, 1, [("n1", "a"), ("n2", "a")]⟩] failSecond) =
        ⟨[⟨0, 2, [("n1", "a"), ("n2", "a")]⟩],
          vecStep (xInit [⟨0, 1, [("n1", "a"), ("n2", "a")]⟩]) [1] 1, 2, 1,
          ExitKind.solveError⟩ := by
      rw [calculate, show (103 : Nat) = 102 + 1 from rfl,
        calcLoop_succ_some_first _ _ failSecond 102 _ _ 1 0 0 [1] hd1f]
      rw [if_neg (by norm_num [normSq]), if_neg (by norm_num)]
      rw [happly1, show (102 : Nat) = 101 + 1 from rfl,
        calcLoop_succ_none _ _ failSecond 101 _ _ _ _ _ _ hd2f]
    rw [hrun]
    refine ⟨rfl, rfl, by norm_num, by norm_num, by norm_num⟩

/-- Witness for the first part of the amended C8: a solver exception on a
system with no equations (empty node map) leaves the single net's value 5
unchanged. -/
theorem claim_C8_witness :
    lsolve ((assembleEquations [] [] [⟨0, 5, []⟩]).map Prod.fst)
      ((assembleEquations [] [] [⟨0, 5, []⟩]).map fun e => -e.2) = none ∧
    calculate [] [] [⟨0, 5, []⟩] lsolve =
      ⟨[⟨0, 5, []⟩], xInit [⟨0, 5, []⟩], 1, 1, ExitKind.solveError⟩ :=
  ⟨by decide, claim_C8_amended.1 [] [] [⟨0, 5, []⟩] lsolve (by decide)⟩

/-! ## The traversal budget is sufficient (no `outOfFuel`) -/

/-- All `(node, port)` pairs appearing as edge endpoints. -/
def endpointPairs (edges : List GraphEdge) : List Pair :=
  edges.flatMap fun e => [(e.source, e.sourceHandle), (e.target, e.targetHandle)]

lemma dedupFirstAux_nodup [DecidableEq α] :
    ∀ (l seenKeys : List α), (dedupFirstAux l seenKeys).Nodup := by
  intro l
  induction l with
  | nil => intro seenKeys; simp [dedupFirstAux]
  | cons a l ih =>
    intro seenKeys
    unfold dedupFirstAux
    by_cases ha : a ∈ seenKeys
    · rw [if_pos ha]; exact ih seenKeys
    · rw [if_neg ha]
      refine List.nodup_cons.2 ⟨?_, ih (a :: seenKeys)⟩
      intro hc
      exact ((dedupFirstAux_mem a l (a :: seenKeys)).1 hc).2 (by simp)

lemma dedupFirst_nodup [DecidableEq α] (l : List α) : (dedupFirst l).Nodup :=
  dedupFirstAux_nodup l []

lemma dedupFirstAux_length_le [DecidableEq α] :
    ∀ (l seenKeys : List α), (dedupFirstAux l seenKeys).length ≤ l.length := by
  intro l
  induction l with
  | nil => intro seenKeys; simp [dedupFirstAux]
  | cons a l ih =>
    intro seenKeys
    unfold dedupFirstAux
    by_cases ha : a ∈ seenKeys
    · rw [if_pos ha]
      exact le_trans (ih seenKeys) (by simp)
    · rw [if_neg ha]
      simpa using ih (a :: seenKeys)

lemma dedupFirst_length_le [DecidableEq α] (l : List α) :
    (dedupFirst l).length ≤ l.length :=
  dedupFirstAux_length_le l []

lemma edgeConnsAt_length_le (x : Pair) (e : GraphEdge) :
    (edgeConnsAt x e).length ≤ 2 := by
  unfold edgeConnsAt
  by_cases h1 : (e.source, e.sourceHandle) = x <;>
    by_cases h2 : (e.target, e.targetHandle) = x <;> simp [h1, h2]

lemma conns_length_le (edges : List GraphEdge) (x : Pair) :
    (conns edges x).length ≤ 2 * edges.length := by
  induction edges with
  | nil => simp [conns]
  | cons e rest ih =>
    have : conns (e :: rest) x = edgeConnsAt x e ++ conns rest x := by
      simp [conns]
    rw [this, List.length_append, List.length_cons]
    have h1 := edgeConnsAt_length_le x e
    omega

lemma mem_endpointPairs {edges : List GraphEdge} {x : Pair} :
    x ∈ endpointPairs edges ↔ ∃ e ∈ edges,
      (x = (e.source, e.sourceHandle) ∨ x = (e.target, e.targetHandle)) := by
  unfold endpointPairs
  rw [List.mem_flatMap]
  constructor
  · rintro ⟨e, he, hx⟩
    rcases List.mem_cons.1 hx with hx | hx
    · exact ⟨e, he, Or.inl hx⟩
    · exact ⟨e, he, Or.inr (List.mem_singleton.1 hx)⟩
  · rintro ⟨e, he, hx | hx⟩
    · exact ⟨e, he, by simp [hx]⟩
    · exact ⟨e, he, by simp [hx]⟩

lemma conns_mem_univ {edges : List GraphEdge} {p q : Pair}
    (h : q ∈ conns edges p) : q ∈ dedupFirst (endpointPairs edges) := by
  rw [dedupFirst_mem, mem_endpointPairs]
  rcases mem_conns.1 h with ⟨e, he, hc | hc⟩
  · exact ⟨e, he, Or.inr hc.2⟩
  · exact ⟨e, he, Or.inl hc.2⟩

lemma seed_mem_univ {edges : List GraphEdge} {x : Pair}
    (h : conns edges x ≠ []) : x ∈ dedupFirst (endpointPairs edges) := by
  rw [dedupFirst_mem, mem_endpointPairs]
  exact conns_ne_nil.1 h

lemma sum_map_le_length_mul (f : Pair → Nat) (c : Nat) :
    ∀ l : List Pair, (∀ q ∈ l, f q ≤ c) → (l.map f).sum ≤ l.length * c := by
  intro l
  induction l with
  | nil => intro _; simp
  | cons a l ih =>
    intro hb
    have h1 : f a ≤ c := hb a (by simp)
    have h2 := ih fun q hq => hb q (by simp [hq])
    simp only [List.map_cons, List.sum_cons, List.length_cons]
    calc f a + (l.map f).sum ≤ c + l.length * c := by omega
      _ = (l.length + 1) * c := by ring

lemma filter_sum_drop (f : Pair → Nat) :
    ∀ (univ : List Pair) (p : Pair) (seen : List Pair), univ.Nodup →
      p ∈ univ → p ∉ seen →
      ((univ.filter fun q => decide (q ∉ p :: seen)).map f).sum + f p =
        ((univ.filter fun q => decide (q ∉ seen)).map f).sum := by
  intro univ
  induction univ with
  | nil => intro p seen _ hp; cases hp
  | cons a univ ih =>
    intro p seen hnd hp hps
    have hnd2 := List.nodup_cons.1 hnd
    rcases List.mem_cons.1 hp with rfl | hp
    · -- head is the dropped element
      have hfilt : univ.filter (fun q => decide (q ∉ p :: seen)) =
          univ.filter (fun q => decide (q ∉ seen)) := by
        apply List.filter_congr
        intro q hq
        have hqa : q ≠ p := fun hc => hnd2.1 (hc ▸ hq)
        simp [hqa]
      rw [List.filter_cons, List.filter_cons]
      have hin : (decide (p ∉ seen)) = true := by simpa using hps
      have hout : (decide (p ∉ p :: seen)) = false := by simp
      rw [hin, hout, hfilt]
      simp [Nat.add_comm]
    · have hpa : p ≠ a := fun hc => hnd2.1 (hc ▸ hp)
      rw [List.filter_cons, List.filter_cons]
      by_cases ha : a ∈ seen
      · have h1 : (decide (a ∉ p :: seen)) = false := by simp [ha]
        have h2 : (decide (a ∉ seen)) = false := by simp [ha]
        rw [h1, h2]
        simp only [if_neg Bool.false_ne_true]
        exact ih p seen hnd2.2 hp hps
      · have h1 : (decide (a ∉ p :: seen)) = true := by
          simp [ha, Ne.symm hpa]
        have h2 : (decide (a ∉ seen)) = true := by simp [ha]
        rw [h1, h2]
        simp only [eq_self_iff_true, if_true, List.map_cons, List.sum_cons]
        have := ih p seen hnd2.2 hp hps
        omega

/-- With the budget at least the worklist measure, the traversal never
runs out. -/
lemma traverse_no_exhaust (ids : List String) (cns : Pair → List Pair)
    (netId : Nat) (univ : List Pair) (hnd : univ.Nodup)
    (hvals : ∀ p q : Pair, q ∈ cns p → q ∈ univ) :
    ∀ (fuel : Nat) (border seen : List Pair) (st : BuildState),
      (∀ b ∈ border, b ∈ univ) →
      border.length +
        ((univ.filter fun q => decide (q ∉ seen)).map
          fun q => 1 + (cns q).length).sum ≤ fuel →
      traverse ids cns netId fuel border seen st ≠ .error .outOfFuel := by
  intro fuel
  induction fuel with
  | zero =>
    intro border seen st _ hm
    cases border with
    | nil => simp [traverse]
    | cons p rest => simp at hm
  | succ fuel ih =>
    intro border seen st hb hm
    cases border with
    | nil => simp [traverse]
    | cons p rest =>
      simp only [traverse]
      by_cases hp : p ∈ seen
      · rw [if_pos hp]
        refine ih rest seen st (fun b hbm => hb b (by simp [hbm])) ?_
        simp only [List.length_cons] at hm
        omega
      · rw [if_neg hp]
        by_cases hid : p.1 ∈ ids
        · rw [if_pos hid]
          refine ih _ (p :: seen) _ ?_ ?_
          · intro b hbm
            rcases List.mem_append.1 hbm with hbm | hbm
            · exact hvals p b (List.mem_reverse.1 hbm)
            · exact hb b (by simp [hbm])
          · have hdrop := filter_sum_drop (fun q => 1 + (cns q).length) univ p
              seen hnd (hb p (by simp)) hp
            simp only [List.length_append, List.length_reverse,
              List.length_cons] at *
            omega
        · rw [if_neg hid]
          simp

lemma endpointPairs_length (edges : List GraphEdge) :
    (endpointPairs edges).length = 2 * edges.length := by
  induction edges with
  | nil => simp [endpointPairs]
  | cons e rest ih =>
    simp only [endpointPairs, List.flatMap_cons, List.length_append,
      List.length_cons] at *
    simp only [List.length_cons, List.length_nil]
    omega

/-- The fuel budget `bigFuel edges` always suffices for one component
traversal started at a connected seed. -/
lemma traverse_big_no_exhaust (ids : List String) (edges : List GraphEdge)
    (netId : Nat) (seed : Pair) (hseed : conns edges seed ≠ [])
    (st : BuildState) :
    traverse ids (conns edges) netId (bigFuel edges) [seed] [] st ≠
      .error .outOfFuel := by
  refine traverse_no_exhaust ids (conns edges) netId
    (dedupFirst (endpointPairs edges)) (dedupFirst_nodup _)
    (fun p q h => conns_mem_univ h) (bigFuel edges) [seed] [] st ?_ ?_
  · intro b hb
    rw [List.mem_singleton] at hb
    exact hb ▸ seed_mem_univ hseed
  · have hfilt : (dedupFirst (endpointPairs edges)).filter
        (fun q => decide (q ∉ ([] : List Pair))) =
        dedupFirst (endpointPairs edges) :=
      List.filter_eq_self.2 fun q _ => by simp
    rw [hfilt]
    have hlen : (dedupFirst (endpointPairs edges)).length ≤ 2 * edges.length :=
      le_trans (dedupFirst_length_le _) (le_of_eq (endpointPairs_length edges))
    have hsum := sum_map_le_length_mul (fun q => 1 + (conns edges q).length)
      (1 + 2 * edges.length) (dedupFirst (endpointPairs edges))
      (fun q _ => by
        show 1 + (conns edges q).length ≤ 1 + 2 * edges.length
        have := conns_length_le edges q; omega)
    have hmul : (dedupFirst (endpointPairs edges)).length *
        (1 + 2 * edges.length) ≤
        2 * edges.length * (1 + 2 * edges.length) :=
      Nat.mul_le_mul_right _ hlen
    have hexp : bigFuel edges =
        2 * edges.length * (1 + 2 * edges.length) + (4 * edges.length + 2) := by
      unfold bigFuel; ring
    simp only [List.length_singleton]
    omega

/-- Two traversals over connection maps agreeing on pairs of listed nodes
give the same result whenever neither runs out of fuel (in particular the
fuel amounts may differ). -/
lemma traverse_congr (ids : List String) (cns1 cns2 : Pair → List Pair)
    (hagree : ∀ p : Pair, p.1 ∈ ids → cns1 p = cns2 p) (netId : Nat) :
    ∀ (f1 f2 : Nat) (border seen : List Pair) (st : BuildState),
      traverse ids cns1 netId f1 border seen st ≠ .error .outOfFuel →
      traverse ids cns2 netId f2 border seen st ≠ .error .outOfFuel →
      traverse ids cns1 netId f1 border seen st =
        traverse ids cns2 netId f2 border seen st := by
  intro f1
  induction f1 with
  | zero =>
    intro f2 border seen st h1 h2
    cases border with
    | nil =>
      cases f2 with
      | zero => rfl
      | succ f2 => simp [traverse]
    | cons p rest => exact absurd rfl h1
  | succ f1 ih =>
    intro f2 border seen st h1 h2
    cases border with
    | nil =>
      cases f2 with
      | zero => simp [traverse]
      | succ f2 => simp [traverse]
    | cons p rest =>
      cases f2 with
      | zero => exact absurd rfl h2
      | succ f2 =>
        by_cases hp : p ∈ seen
        · have e1 : traverse ids cns1 netId (f1 + 1) (p :: rest) seen st =
              traverse ids cns1 netId f1 rest seen st := by
            simp only [traverse]; rw [if_pos hp]
          have e2 : traverse ids cns2 netId (f2 + 1) (p :: rest) seen st =
              traverse ids cns2 netId f2 rest seen st := by
            simp only [traverse]; rw [if_pos hp]
          rw [e1, e2]
          exact ih f2 rest seen st (e1 ▸ h1) (e2 ▸ h2)
        · by_cases hid : p.1 ∈ ids
          · have e1 : traverse ids cns1 netId (f1 + 1) (p :: rest) seen st =
                traverse ids cns1 netId f1 ((cns2 p).reverse ++ rest)
                  (p :: seen)
                  { portNet := (p, netId) :: st.portNet
                    nets := pushPort st.nets netId p } := by
              simp only [traverse]
              rw [if_neg hp, if_pos hid, hagree p hid]
            have e2 : traverse ids cns2 netId (f2 + 1) (p :: rest) seen st =
                traverse ids cns2 netId f2 ((cns2 p).reverse ++ rest)
                  (p :: seen)
                  { portNet := (p, netId) :: st.portNet
                    nets := pushPort st.nets netId p } := by
              simp only [traverse]
              rw [if_neg hp, if_pos hid]
            rw [e1, e2]
            exact ih f2 _ _ _ (e1 ▸ h1) (e2 ▸ h2)
          · have e1 : traverse ids cns1 netId (f1 + 1) (p :: rest) seen st =
                .error .typeError := by
              simp only [traverse]; rw [if_neg hp, if_neg hid]
            have e2 : traverse ids cns2 netId (f2 + 1) (p :: rest) seen st =
                .error .typeError := by
              simp only [traverse]; rw [if_neg hp, if_neg hid]
            rw [e1, e2]

/-! ## Edges dangling on both ends are inert -/

lemma nodePortMentions_middle (edges₁ edges₂ : List GraphEdge) (e : GraphEdge)
    (n : String) (h1 : e.source ≠ n) (h2 : e.target ≠ n) :
    nodePortMentions (edges₁ ++ e :: edges₂) n =
      nodePortMentions (edges₁ ++ edges₂) n := by
  simp [nodePortMentions, List.flatMap_append, List.flatMap_cons, h1, h2]

lemma conns_middle (edges₁ edges₂ : List GraphEdge) (e : GraphEdge)
    (p : Pair) (h1 : e.source ≠ p.1) (h2 : e.target ≠ p.1) :
    conns (edges₁ ++ e :: edges₂) p = conns (edges₁ ++ edges₂) p := by
  have hs : (e.source, e.sourceHandle) ≠ p := fun hc => h1 (congrArg Prod.fst hc)
  have ht : (e.target, e.targetHandle) ≠ p := fun hc => h2 (congrArg Prod.fst hc)
  simp [conns, List.flatMap_append, List.flatMap_cons, edgeConnsAt, hs, ht]

lemma buildPortsNode_middle (ids : List String) (edges₁ edges₂ : List GraphEdge)
    (e : GraphEdge) (he1 : e.source ∉ ids) (he2 : e.target ∉ ids)
    (nid : String) (hnid : nid ∈ ids) :
    ∀ (ports : List String) (st : BuildState),
      (∀ portId ∈ ports, conns (edges₁ ++ e :: edges₂) (nid, portId) ≠ []) →
      buildPortsNode ids (edges₁ ++ e :: edges₂) nid ports st =
        buildPortsNode ids (edges₁ ++ edges₂) nid ports st := by
  have hagree : ∀ p : Pair, p.1 ∈ ids →
      conns (edges₁ ++ e :: edges₂) p = conns (edges₁ ++ edges₂) p :=
    fun p hp => conns_middle edges₁ edges₂ e p
      (fun hc => he1 (hc ▸ hp)) (fun hc => he2 (hc ▸ hp))
  intro ports
  induction ports with
  | nil => intro st _; rfl
  | cons portId rest ih =>
    intro st hcn
    simp only [buildPortsNode]
    by_cases hlk : (pnLookup st.portNet (nid, portId)).isSome
    · rw [if_pos hlk, if_pos hlk]
      exact ih st fun q hq => hcn q (by simp [hq])
    · rw [if_neg hlk, if_neg hlk]
      have hc1 : conns (edges₁ ++ e :: edges₂) (nid, portId) ≠ [] :=
        hcn portId (by simp)
      have hc2 : conns (edges₁ ++ edges₂) (nid, portId) ≠ [] := by
        rw [← hagree (nid, portId) hnid]; exact hc1
      have htr := traverse_congr ids
        (conns (edges₁ ++ e :: edges₂)) (conns (edges₁ ++ edges₂)) hagree
        st.nets.length (bigFuel (edges₁ ++ e :: edges₂))
        (bigFuel (edges₁ ++ edges₂)) [(nid, portId)] []
        { st with nets := st.nets ++ [(⟨st.nets.length, 1, []⟩ : CalcNet)] }
        (traverse_big_no_exhaust ids (edges₁ ++ e :: edges₂)
          st.nets.length (nid, portId) hc1 _)
        (traverse_big_no_exhaust ids (edges₁ ++ edges₂)
          st.nets.length (nid, portId) hc2 _)
      rw [← htr]
      cases traverse ids (conns (edges₁ ++ e :: edges₂)) st.nets.length
          (bigFuel (edges₁ ++ e :: edges₂)) [(nid, portId)] []
          { st with nets := st.nets ++ [(⟨st.nets.length, 1, []⟩ : CalcNet)] }
        with
      | error err => rfl
      | ok st2 => exact ih st2 fun q hq => hcn q (by simp [hq])

lemma buildPorts_middle (ids : List String) (edges₁ edges₂ : List GraphEdge)
    (e : GraphEdge) (he1 : e.source ∉ ids) (he2 : e.target ∉ ids) :
    ∀ (nodes : List GraphNode) (st : BuildState),
      (∀ n ∈ nodes, n.id ∈ ids) →
      buildPorts ids (edges₁ ++ e :: edges₂) nodes st =
        buildPorts ids (edges₁ ++ edges₂) nodes st := by
  intro nodes
  induction nodes with
  | nil => intro st _; rfl
  | cons node rest ih =>
    intro st hn
    have hnid : node.id ∈ ids := hn node (by simp)
    have hkeys : portKeys (edges₁ ++ e :: edges₂) node.id =
        portKeys (edges₁ ++ edges₂) node.id := by
      unfold portKeys
      rw [nodePortMentions_middle edges₁ edges₂ e node.id
        (fun hc => he1 (hc ▸ hnid)) (fun hc => he2 (hc ▸ hnid))]
    have hcn : ∀ portId ∈ portKeys (edges₁ ++ e :: edges₂) node.id,
        conns (edges₁ ++ e :: edges₂) (node.id, portId) ≠ [] :=
      fun portId hq => portKeys_iff.1 hq
    simp only [buildPorts]
    rw [show buildPortsNode ids (edges₁ ++ edges₂) node.id
        (portKeys (edges₁ ++ edges₂) node.id) st =
        buildPortsNode ids (edges₁ ++ edges₂) node.id
        (portKeys (edges₁ ++ e :: edges₂) node.id) st from by rw [hkeys]]
    rw [← buildPortsNode_middle ids edges₁ edges₂ e he1 he2 node.id hnid
      (portKeys (edges₁ ++ e :: edges₂) node.id) st hcn]
    cases buildPortsNode ids (edges₁ ++ e :: edges₂) node.id
        (portKeys (edges₁ ++ e :: edges₂) node.id) st with
    | error err => rfl
    | ok st2 => exact ih st2 fun n hnm => hn n (by simp [hnm])

/-- C6 (amended): an edge BOTH of whose endpoints name nonexistent nodes is
inert — deleting it from the edge list leaves `buildCalculationGraph`
unchanged (it is skipped rather than reported).  (An edge with exactly one
nonexistent endpoint instead makes the build throw, see the
counterexample.) -/
theorem claim_C6_amended (nodes : List GraphNode) (e : GraphEdge)
    (edges₁ edges₂ : List GraphEdge)
    (h1 : e.source ∉ nodes.map (·.id)) (h2 : e.target ∉ nodes.map (·.id)) :
    buildCalculationGraph nodes (edges₁ ++ e :: edges₂) =
      buildCalculationGraph nodes (edges₁ ++ edges₂) := by
  unfold buildCalculationGraph
  rw [buildPorts_middle (nodes.map (·.id)) edges₁ edges₂ e h1 h2 nodes
    ⟨[], []⟩ (fun n hn => List.mem_map.2 ⟨n, hn, rfl⟩)]

/-- Witness: deleting an edge between two nonexistent nodes `X`, `Y` from a
one-node graph leaves the build output unchanged. -/
theorem claim_C6_witness :
    ("X" ∉ (([⟨"n1", NodeSpec.number 2 true⟩] : List GraphNode).map (·.id)) ∧
     "Y" ∉ (([⟨"n1", NodeSpec.number 2 true⟩] : List GraphNode).map (·.id))) ∧
    buildCalculationGraph [⟨"n1", NodeSpec.number 2 true⟩]
        ([] ++ (⟨"X", "u", "Y", "v"⟩ : GraphEdge) :: []) =
      buildCalculationGraph [⟨"n1", NodeSpec.number 2 true⟩] ([] ++ []) :=
  ⟨⟨by decide, by decide⟩,
    claim_C6_amended [⟨"n1", NodeSpec.number 2 true⟩] ⟨"X", "u", "Y", "v"⟩
      [] [] (by decide) (by decide)⟩

end OPCS
